import Mathlib

/-!
# bee::Converter (src/Core/Source/bee/Converter.cpp)

A shallow embedding of the conversion driver: the importer adapter
(`Converter::_import`), the member function `Converter::convert` with its
buffer resolution loop, and the free function `convert`.

External collaborators (the FBX SDK, `SceneConverter`, `GLTFBuilder`, the
JSON serialiser) are represented by the answers they give during one
conversion.  Side effects that the properties talk about (writer calls,
log messages, creation and destruction of SDK objects) are recorded in
explicit traces.
-/

namespace cppcodec

/-- One `std::byte` / `char` of a blob. -/
abbrev Byte := Fin 256

namespace base64_rfc4648

/-- Modelled from the spec: the alphabet of the "standard base64 alphabet"
(RFC 4648, table 1) used by `cppcodec::base64_rfc4648`, a library that is not
part of the sources. -/
def alphabet : List Char :=
  "ABCDEFGHIJKLMNOPQRSTUVWXYZabcdefghijklmnopqrstuvwxyz0123456789+/".toList

/-- Modelled from the spec: the character of a 6-bit group. -/
def symbol (n : Nat) : Char := alphabet.getD n '='

/-- Modelled from the spec: the 6-bit group of a character of the alphabet,
`none` for any other character. -/
def value (c : Char) : Option Nat :=
  if alphabet.indexOf c < 64 then some (alphabet.indexOf c) else none

/-- Modelled from the spec: RFC 4648 base64 encoding with `=` padding, the
behaviour of `cppcodec::base64_rfc4648::encode(data, size)`: every three
bytes give four characters, a last group of one or two bytes is padded. -/
def encodeChars : List Byte → List Char
  | [] => []
  | [a] => [symbol (a.val / 4), symbol (a.val % 4 * 16), '=', '=']
  | [a, b] =>
    [symbol (a.val / 4), symbol (a.val % 4 * 16 + b.val / 16),
      symbol (b.val % 16 * 4), '=']
  | a :: b :: c :: rest =>
    symbol (a.val / 4) :: symbol (a.val % 4 * 16 + b.val / 16) ::
      symbol (b.val % 16 * 4 + c.val / 64) :: symbol (c.val % 64) ::
      encodeChars rest

/-- Modelled from the spec: `cppcodec::base64_rfc4648::encode` as a string. -/
def encode (data : List Byte) : String := String.mk (encodeChars data)

/-- Modelled from the spec: strict RFC 4648 base64 decoding.  The input is
read in groups of four characters; padding is accepted only in the last
group, and a character outside the alphabet or an incomplete group makes the
decoding fail. -/
def decodeChars : List Char → Option (List Byte)
  | [] => some []
  | c0 :: c1 :: c2 :: c3 :: rest =>
    if c3 = '=' then
      if rest = [] then
        if c2 = '=' then
          match value c0, value c1 with
          | some v0, some v1 =>
            if v1 % 16 = 0 then some [Fin.ofNat (v0 * 4 + v1 / 16)] else none
          | _, _ => none
        else
          match value c0, value c1, value c2 with
          | some v0, some v1, some v2 =>
            if v2 % 4 = 0 then
              some [Fin.ofNat (v0 * 4 + v1 / 16),
                Fin.ofNat (v1 % 16 * 16 + v2 / 4)]
            else none
          | _, _, _ => none
      else none
    else
      match value c0, value c1, value c2, value c3, decodeChars rest with
      | some v0, some v1, some v2, some v3, some tail =>
        some (Fin.ofNat (v0 * 4 + v1 / 16) ::
          Fin.ofNat (v1 % 16 * 16 + v2 / 4) ::
          Fin.ofNat (v2 % 4 * 64 + v3) :: tail)
      | _, _, _, _, _ => none
  | _ => none

/-- Modelled from the spec: standard base64 decoding of a string. -/
def decode (s : String) : Option (List Byte) := decodeChars s.data

end base64_rfc4648

end cppcodec

namespace bee

open cppcodec (Byte)

/-! ## Logger, options, writer -/

/-- Severity of a message handed to the logger (`Logger::Level`). -/
inductive Logger.Level where
  | verbose
  | info
  | warning
  | error
  deriving DecidableEq, Repr

/-- What a call of `GLTFWriter::buffer` does: it returns an optional
reference, or it throws. -/
inductive WriterReply where
  | returned (u8Uri : Option String)
  | raised (what : String)
  deriving DecidableEq, Repr

/-- Whether the call ended with an exception. -/
def WriterReply.isRaised : WriterReply → Bool
  | .returned _ => false
  | .raised _ => true

/-- A writer: `buffer(data, size, index, multipleBuffersExist)`, with the
writer's own state made explicit. -/
structure GLTFWriter (σ : Type) where
  buffer : σ → List Byte → Nat → Nat → Bool → WriterReply × σ

/-- Modelled from the spec: the default `GLTFWriter` declared in
`bee/Converter.h` (absent from the sources); it is the "null/default
implementation substituted when absent", which never persists a buffer and
returns no reference. -/
def defaultWriter {σ : Type} : GLTFWriter σ :=
  ⟨fun s _ _ _ _ => (WriterReply.returned none, s)⟩

/-- The fields of `ConvertOptions` read by the converter.  `logger` tells
whether a logger is configured; its messages are collected in a log. -/
structure ConvertOptions (σ : Type) where
  fbmDir : Option String
  logger : Bool
  verbose : Bool
  useDataUriForBuffers : Bool
  writer : Option (GLTFWriter σ)

/-- One recorded invocation of `GLTFWriter::buffer` with its outcome. -/
structure WriterCall where
  data : List Byte
  size : Nat
  index : Nat
  multipleBuffersExist : Bool
  reply : WriterReply
  deriving DecidableEq, Repr

/-! ## Document -/

/-- A buffer descriptor of the glTF document (`fx::gltf::Buffer`). -/
structure Buffer where
  byteLength : Nat
  name : String
  uri : String
  deriving DecidableEq, Repr

/-- An image descriptor of the glTF document. -/
structure Image where
  name : String
  uri : String
  deriving DecidableEq, Repr

/-- The parts of `fx::gltf::Document` the converter touches. -/
structure Document where
  buffers : List Buffer
  images : List Image
  deriving DecidableEq, Repr

/-! ## The FBX SDK and the other collaborators -/

/-- SDK objects whose lifetime the converter manages. -/
inductive FbxObject where
  | manager
  | ioSettings
  | importer
  | scene
  deriving DecidableEq, Repr

/-- Creation (`T::Create`) and destruction (`Destroy()`) of an SDK object. -/
inductive Event where
  | create (o : FbxObject)
  | destroy (o : FbxObject)
  deriving DecidableEq, Repr

/-- Modelled from the spec: `FbxObjectDestroyer`
(`bee/Convert/fbxsdk/ObjectDestroyer.h`, absent from the sources), the
"destructor-bound guard" of the scoped native-resource acquisition.  Its
destructor runs when the scope of the guard is left, by `return` or by
exception, and destroys the guarded object. -/
def FbxObjectDestroyer.destructor (object_ : FbxObject) : List Event :=
  [Event.destroy object_]

/-- The answers of the FBX SDK during one conversion: whether
`FbxManager::Create()` returned a manager, the results of `AddXRefProject`,
`FbxImporter::Initialize`, `IsFBX` and `Import`, the error strings of
`GetStatus()` after a failed initialisation or import, and
`GetFileHeaderInfo()->mFileVersion` (a C++ `int`). -/
structure FbxSdk where
  managerOk : Bool
  addXRefProjectOk : Bool
  importInitOk : Bool
  importInitStatus : String
  isFBX : Bool
  mFileVersion : Int
  importOk : Bool
  importStatus : String

/-- The answers of `SceneConverter`, `GLTFBuilder` and the serialiser:
`sceneConvert` is the message of the exception thrown by
`SceneConverter::convert` (if any), `build` is the document and the blobs
given by `GLTFBuilder::build` or the message of its exception, `to_json` is
`fx::gltf::to_json`. -/
structure Pipeline (Json : Type) where
  sceneConvert : Option String
  build : Except String (Document × List (List Byte))
  to_json : Document → Json

/-- Why a conversion ended with an exception.  `outOfRange` stands for the
undefined behaviour of indexing `glTFBuildResult.buffers` past its end. -/
inductive ConvertError where
  | runtimeError (what : String)
  | sceneConverter (what : String)
  | build (what : String)
  | writer (what : String)
  | outOfRange
  deriving DecidableEq, Repr

/-! ## Converter::_import -/

/-- The loop `while (minor != 0 && minor % 10 == 0) minor /= 10;` of
`Converter::_import`.  `minor` is a C++ `int`: `%` and `/` truncate toward
zero, and neither can overflow for a divisor of 10. -/
def minorLoop (minor : Int) : Int :=
  if minor ≠ 0 ∧ minor.tmod 10 = 0 then minorLoop (minor.tdiv 10) else minor
termination_by minor.natAbs
decreasing_by
  rename_i h
  have h0 : minor ≠ 0 := h.1
  rw [Int.natAbs_tdiv]
  have hpos : 0 < minor.natAbs := Int.natAbs_pos.mpr h0
  exact Nat.div_lt_self hpos (by decide)

/-- The same loop with a bound on the number of tests of its condition;
`none` when the bound is reached before the condition is false. -/
def minorLoopFuel : Nat → Int → Option Int
  | 0, _ => none
  | fuel + 1, minor =>
    if minor ≠ 0 ∧ minor.tmod 10 = 0 then minorLoopFuel fuel (minor.tdiv 10)
    else some minor

/-- The text `fmt::format("{}.{}", major, minor)` of `Converter::_import`,
with `major = mFileVersion / 1000` and `minor` the result of the loop on
`mFileVersion % 1000`. -/
def versionString (mFileVersion : Int) : String :=
  toString (mFileVersion.tdiv 1000) ++ "." ++
    toString (minorLoop (mFileVersion.tmod 1000))

/-- The message logged by `Converter::_import`. -/
def versionMessage (mFileVersion : Int) : String :=
  "FBX file version: " ++ versionString mFileVersion

/-- Specification of the minor part, in the words of the specification: the number
left after removing all trailing zero decimal digits (0 stays 0).
`Nat.digits` lists the least significant digit first. -/
def dropTrailingZeroDigits (n : Nat) : Nat :=
  Nat.ofDigits 10 ((Nat.digits 10 n).dropWhile (fun d => decide (d = 0)))

/-- What one call of `Converter::_import` does: whether it returned the scene
or threw, the SDK objects it created and destroyed, the messages it logged
and the import settings it switched on. -/
structure ImportRun where
  result : Except ConvertError Unit
  events : List Event
  log : List (Logger.Level × String)
  ioProps : List String

/-- `Converter::_import`.  The importer is guarded by a
`FbxObjectDestroyer` from its creation on, so it is destroyed when the
function is left, by `return` or by `throw`; the scene is created without a
guard. -/
def Converter._import {σ : Type} (sdk : FbxSdk) (options_ : ConvertOptions σ) :
    ImportRun :=
  let created := [Event.create FbxObject.ioSettings, Event.create FbxObject.importer]
  if !sdk.importInitOk then
    { result := .error (.runtimeError
        ("Failed to initialize FBX importer: " ++ "" ++ sdk.importInitStatus))
      events := created ++ FbxObjectDestroyer.destructor FbxObject.importer
      log := []
      ioProps := [] }
  else
    let ioProps :=
      if sdk.isFBX then
        ["EXP_FBX_MODEL", "EXP_FBX_MATERIAL", "EXP_FBX_TEXTURE", "EXP_FBX_EMBEDDED",
          "EXP_FBX_SHAPE", "EXP_FBX_GOBO", "EXP_FBX_ANIMATION",
          "EXP_FBX_GLOBAL_SETTINGS"]
      else []
    let log :=
      if options_.verbose then
        if options_.logger then
          [(Logger.Level.verbose, versionMessage sdk.mFileVersion)]
        else []
      else []
    let withScene := created ++ [Event.create FbxObject.scene]
    if !sdk.importOk then
      { result := .error (.runtimeError
          ("Failed to import scene." ++ "" ++ sdk.importStatus))
        events := withScene ++ FbxObjectDestroyer.destructor FbxObject.importer
        log := log
        ioProps := ioProps }
    else
      { result := .ok ()
        events := withScene ++ FbxObjectDestroyer.destructor FbxObject.importer
        log := log
        ioProps := ioProps }

/-! ## Converter::convert -/

/-- The scheme marker put in front of the base64 text of an inline buffer. -/
def dataUriScheme : String := "data:application/octet-stream;base64,"

/-- The inline reference of a blob (lines 77 to 80 of the source):
`"data:application/octet-stream;base64," + base64Data`. -/
def dataUri (bufferData : List Byte) : String :=
  dataUriScheme ++ cppcodec.base64_rfc4648.encode bufferData

/-- The state the buffer resolution loop works on: the document of the
builder, the state of the writer and the calls of the writer so far. -/
structure ResolveState (σ : Type) where
  document : Document
  writerState : σ
  calls : List WriterCall

/-- The assignment `glTFDocument.buffers[iBuffer].uri = uri`. -/
def Document.setBufferUri (doc : Document) (iBuffer : Nat) (uri : String) : Document :=
  { doc with buffers := doc.buffers.modify (fun b => { b with uri := uri }) iBuffer }

/-- The body of the buffer loop of `Converter::convert` for one `iBuffer`:
the exception that left it (if any) and the state reached. -/
def Converter.resolveBuffer {σ : Type} (options_ : ConvertOptions σ)
    (glTFWriter : GLTFWriter σ) (blobs : List (List Byte)) (nBuffers iBuffer : Nat)
    (st : ResolveState σ) : Option ConvertError × ResolveState σ :=
  match st.document.buffers[iBuffer]?, blobs[iBuffer]? with
  | some _, some bufferData =>
    if !options_.useDataUriForBuffers then
      match glTFWriter.buffer st.writerState bufferData bufferData.length iBuffer
          (nBuffers != 1) with
      | (WriterReply.raised what, s) =>
        (some (.writer what),
          { st with
            writerState := s
            calls := st.calls ++
              [⟨bufferData, bufferData.length, iBuffer, nBuffers != 1, .raised what⟩] })
      | (WriterReply.returned u8Uri, s) =>
        let uri : Option String := u8Uri
        let uri : String := uri.getD (dataUri bufferData)
        (none,
          { document := st.document.setBufferUri iBuffer uri
            writerState := s
            calls := st.calls ++
              [⟨bufferData, bufferData.length, iBuffer, nBuffers != 1, .returned u8Uri⟩] })
    else
      let uri : Option String := none
      let uri : String := uri.getD (dataUri bufferData)
      (none, { st with document := st.document.setBufferUri iBuffer uri })
  | _, _ => (some .outOfRange, st)

/-- Runs a loop body for the given values of the loop variable, in order,
stopping at the first exception. -/
def forIndices {S E : Type} (body : Nat → S → Option E × S) : List Nat → S → Option E × S
  | [], st => (none, st)
  | i :: rest, st =>
    match body i st with
    | (none, st1) => forIndices body rest st1
    | (some e, st1) => (some e, st1)

/-- The buffer block of `Converter::convert` (lines 61 to 84):
`nBuffers` is the buffer count cast to `std::uint32_t`, and `iBuffer` runs
from 0 to `nBuffers - 1`. -/
def Converter.resolveBuffers {σ : Type} (options_ : ConvertOptions σ)
    (glTFWriter : GLTFWriter σ) (blobs : List (List Byte)) (st : ResolveState σ) :
    Option ConvertError × ResolveState σ :=
  let nBuffers := st.document.buffers.length % 2 ^ 32
  forIndices (Converter.resolveBuffer options_ glTFWriter blobs nBuffers)
    (List.range nBuffers) st

/-- The image block of `Converter::convert` (lines 86 to 91): a loop with an
empty body. -/
def Converter.resolveImages (doc : Document) : Document :=
  (List.range doc.images.length).foldl (fun d _ => d) doc

/-- What one conversion does: the returned JSON or the exception, the SDK
objects created and destroyed, the messages logged, the calls of the writer,
the state of the writer, and the document of the builder as it was when the
conversion ended (`none` if `build` was not reached). -/
structure ConvertRun (σ Json : Type) where
  result : Except ConvertError Json
  events : List Event
  log : List (Logger.Level × String)
  calls : List WriterCall
  writerState : σ
  document : Option Document

/-- The member function `Converter::convert`.  The scene returned by `_import` is
guarded by a `FbxObjectDestroyer` that destroys it when the function is
left; an exception of `_import` leaves the function before the guard
exists. -/
def Converter.convert {σ Json : Type} (sdk : FbxSdk) (pipeline : Pipeline Json)
    (options_ : ConvertOptions σ) (writerState : σ) : ConvertRun σ Json :=
  let imported := Converter._import sdk options_
  match imported.result with
  | .error e =>
    { result := .error e, events := imported.events, log := imported.log,
      calls := [], writerState := writerState, document := none }
  | .ok () =>
    let released := imported.events ++ FbxObjectDestroyer.destructor FbxObject.scene
    match pipeline.sceneConvert with
    | some what =>
      { result := .error (.sceneConverter what), events := released,
        log := imported.log, calls := [], writerState := writerState, document := none }
    | none =>
      match pipeline.build with
      | .error what =>
        { result := .error (.build what), events := released, log := imported.log,
          calls := [], writerState := writerState, document := none }
      | .ok (glTFDocument, blobs) =>
        let glTFWriter := options_.writer.getD defaultWriter
        match Converter.resolveBuffers options_ glTFWriter blobs
            ⟨glTFDocument, writerState, []⟩ with
        | (some e, st) =>
          { result := .error e, events := released, log := imported.log,
            calls := st.calls, writerState := st.writerState,
            document := some st.document }
        | (none, st) =>
          let glTFDocument := Converter.resolveImages st.document
          { result := .ok (pipeline.to_json glTFDocument), events := released,
            log := imported.log, calls := st.calls, writerState := st.writerState,
            document := some glTFDocument }

/-- The constructor of `Converter`: it creates the manager, and warns when the
`.fbm` directory cannot be registered.  `none` when it throws. -/
def Converter.new {σ : Type} (sdk : FbxSdk) (options_ : ConvertOptions σ) :
    Option (List (Logger.Level × String)) :=
  if !sdk.managerOk then none
  else
    match options_.fbmDir with
    | some _ =>
      if !sdk.addXRefProjectOk then
        if options_.logger then some [(Logger.Level.warning, "Failed to set .fbm dir")]
        else some []
      else some []
    | none => some []

/-- The free function `bee::convert`: it constructs a `Converter`, calls its
`convert`, and the destructor of the `Converter` destroys the manager on the
way out, by `return` or by exception. -/
def convert {σ Json : Type} (sdk : FbxSdk) (pipeline : Pipeline Json)
    (options_ : ConvertOptions σ) (writerState : σ) : ConvertRun σ Json :=
  match Converter.new sdk options_ with
  | none =>
    { result := .error (.runtimeError "Failed to initialize FBX SDK."), events := [],
      log := [], calls := [], writerState := writerState, document := none }
  | some warnings =>
    let run := Converter.convert sdk pipeline options_ writerState
    { run with
      events := [Event.create FbxObject.manager] ++ run.events ++
        [Event.destroy FbxObject.manager]
      log := warnings ++ run.log }

/-! ## Sample inputs -/

namespace Sample

/-- A writer that stores buffer 0 in a file and declines every other
buffer. -/
def writer : GLTFWriter Unit :=
  ⟨fun s _ _ index _ =>
    (if index = 0 then WriterReply.returned (some "buffer0.bin") else WriterReply.returned none, s)⟩

/-- A writer that raises for buffer 1. -/
def failingWriter : GLTFWriter Unit :=
  ⟨fun s _ _ index _ =>
    (if index = 1 then WriterReply.raised "disk full" else WriterReply.returned (some "b.bin"), s)⟩

/-- A writer that declines every buffer. -/
def abstainingWriter : GLTFWriter Unit :=
  ⟨fun s _ _ _ _ => (WriterReply.returned none, s)⟩

/-- A writer that stores every buffer in the same file. -/
def fileWriter : GLTFWriter Unit :=
  ⟨fun s _ _ _ _ => (WriterReply.returned (some "b.bin"), s)⟩

/-- A document with two buffers. -/
def document : Document :=
  ⟨[⟨1, "a", ""⟩, ⟨2, "b", ""⟩], []⟩

/-- The blobs of `document`. -/
def blobs : List (List Byte) := [[1], [2, 3]]

/-- Options with a configured writer and `useDataUriForBuffers` false. -/
def options : ConvertOptions Unit :=
  ⟨none, true, true, false, some writer⟩

/-- Options that force inline references. -/
def inlineOptions : ConvertOptions Unit :=
  ⟨none, true, true, true, some writer⟩

/-- An SDK that imports a file of version 7400. -/
def sdk : FbxSdk :=
  ⟨true, true, true, "", true, 7400, true, ""⟩

/-- A pipeline that builds `document` with `blobs`; the JSON value is the
document itself. -/
def pipeline : Pipeline Document :=
  ⟨none, .ok (document, blobs), id⟩

end Sample

/-! ## Inline encoding: round trip -/

section Base64

open cppcodec.base64_rfc4648

theorem value_symbol_fin : ∀ n : Fin 64, value (symbol n.val) = some n.val := by
  decide

theorem symbol_ne_pad_fin : ∀ n : Fin 64, symbol n.val ≠ '=' := by
  decide

theorem value_symbol {n : Nat} (h : n < 64) : value (symbol n) = some n :=
  value_symbol_fin ⟨n, h⟩

theorem symbol_ne_pad {n : Nat} (h : n < 64) : symbol n ≠ '=' :=
  symbol_ne_pad_fin ⟨n, h⟩

theorem byte_ofNat_eq (a : Byte) (n : Nat) (h : n = a.val) : (Fin.ofNat n : Byte) = a := by
  apply Fin.ext
  have := a.isLt
  simp only [Fin.ofNat, h]
  omega

theorem decodeChars_encodeChars : ∀ l : List Byte, decodeChars (encodeChars l) = some l
  | [] => by simp [encodeChars, decodeChars]
  | [a] => by
    have ha := a.isLt
    have h0 : a.val / 4 < 64 := by omega
    have h1 : a.val % 4 * 16 < 64 := by omega
    simp only [encodeChars, decodeChars, value_symbol h0, value_symbol h1, if_true]
    rw [if_pos (by omega)]
    rw [byte_ofNat_eq a _ (by omega)]
  | [a, b] => by
    have ha := a.isLt
    have hb := b.isLt
    have h0 : a.val / 4 < 64 := by omega
    have h1 : a.val % 4 * 16 + b.val / 16 < 64 := by omega
    have h2 : b.val % 16 * 4 < 64 := by omega
    simp only [encodeChars, decodeChars, value_symbol h0, value_symbol h1, value_symbol h2,
      if_true, if_neg (symbol_ne_pad h2)]
    rw [if_pos (by omega)]
    rw [byte_ofNat_eq a _ (by omega), byte_ofNat_eq b _ (by omega)]
  | a :: b :: c :: rest => by
    have ih := decodeChars_encodeChars rest
    have ha := a.isLt
    have hb := b.isLt
    have hc := c.isLt
    have h0 : a.val / 4 < 64 := by omega
    have h1 : a.val % 4 * 16 + b.val / 16 < 64 := by omega
    have h2 : b.val % 16 * 4 + c.val / 64 < 64 := by omega
    have h3 : c.val % 64 < 64 := by omega
    simp only [encodeChars, decodeChars, value_symbol h0, value_symbol h1, value_symbol h2,
      value_symbol h3, if_neg (symbol_ne_pad h3), ih]
    rw [byte_ofNat_eq a _ (by omega), byte_ofNat_eq b _ (by omega),
      byte_ofNat_eq c _ (by omega)]

theorem decode_encode (data : List Byte) : decode (encode data) = some data := by
  simp only [decode, encode]
  exact decodeChars_encodeChars data

end Base64

/-! ## The version diagnostic -/

section Version

theorem tmod_natCast (n : Nat) : (n : Int).tmod 10 = ((n % 10 : Nat) : Int) := rfl

theorem tdiv_natCast (n : Nat) : (n : Int).tdiv 10 = ((n / 10 : Nat) : Int) := rfl

theorem tmod_thousand (n : Nat) : (n : Int).tmod 1000 = ((n % 1000 : Nat) : Int) := rfl

theorem tdiv_thousand (n : Nat) : (n : Int).tdiv 1000 = ((n / 1000 : Nat) : Int) := rfl

theorem toString_natCast (n : Nat) : toString (n : Int) = toString n := rfl

/-- One unfolding of the loop on a non-negative value. -/
theorem minorLoop_natCast (n : Nat) :
    minorLoop (n : Int) =
      if n ≠ 0 ∧ n % 10 = 0 then minorLoop ((n / 10 : Nat) : Int) else (n : Int) := by
  rw [minorLoop, tmod_natCast, tdiv_natCast]
  by_cases h : n ≠ 0 ∧ n % 10 = 0
  · have h1 : (n : Int) ≠ 0 ∧ ((n % 10 : Nat) : Int) = 0 := by
      refine ⟨?_, ?_⟩
      · exact_mod_cast h.1
      · exact_mod_cast h.2
    rw [if_pos h, if_pos h1]
  · have h1 : ¬ ((n : Int) ≠ 0 ∧ ((n % 10 : Nat) : Int) = 0) := by
      intro hc
      apply h
      refine ⟨?_, ?_⟩
      · exact_mod_cast hc.1
      · exact_mod_cast hc.2
    rw [if_neg h, if_neg h1]

/-- The loop computes the specified digit operation on every non-negative
value. -/
theorem minorLoop_eq_dropTrailingZeroDigits (n : Nat) :
    minorLoop (n : Int) = ((dropTrailingZeroDigits n : Nat) : Int) := by
  induction n using Nat.strong_induction_on with
  | _ n ih =>
    rw [minorLoop_natCast]
    by_cases h0 : n = 0
    · subst h0
      simp [dropTrailingZeroDigits]
    · have hpos : 0 < n := Nat.pos_of_ne_zero h0
      have hd : Nat.digits 10 n = (n % 10) :: Nat.digits 10 (n / 10) :=
        Nat.digits_def' (by decide) hpos
      by_cases hm : n % 10 = 0
      · rw [if_pos ⟨h0, hm⟩, ih (n / 10) (Nat.div_lt_self hpos (by decide))]
        simp [dropTrailingZeroDigits, hd, hm]
      · rw [if_neg (fun hc => hm hc.2)]
        have hkeep : dropTrailingZeroDigits n = n := by
          simp only [dropTrailingZeroDigits, hd]
          rw [List.dropWhile_cons_of_neg (by simpa using hm), ← hd, Nat.ofDigits_digits]
        rw [hkeep]

/-- A larger bound does not change the result of the bounded loop. -/
theorem minorLoopFuel_mono {fuel fuel1 : Nat} {minor r : Int}
    (h : minorLoopFuel fuel minor = some r) (hle : fuel ≤ fuel1) :
    minorLoopFuel fuel1 minor = some r := by
  induction fuel generalizing fuel1 minor with
  | zero => simp [minorLoopFuel] at h
  | succ n ih =>
    obtain ⟨j, rfl⟩ : ∃ j, fuel1 = j + 1 := ⟨fuel1 - 1, by omega⟩
    simp only [minorLoopFuel] at h ⊢
    by_cases hc : minor ≠ 0 ∧ minor.tmod 10 = 0
    · rw [if_pos hc] at h ⊢
      exact ih h (by omega)
    · rw [if_neg hc] at h ⊢
      exact h

/-- The loop reaches its exit with the bound `natAbs minor + 1`. -/
theorem minorLoopFuel_natAbs (minor : Int) :
    minorLoopFuel (minor.natAbs + 1) minor = some (minorLoop minor) := by
  generalize hk : minor.natAbs = k
  induction k using Nat.strong_induction_on generalizing minor with
  | _ k ih =>
    rw [minorLoop]
    simp only [minorLoopFuel]
    by_cases h : minor ≠ 0 ∧ minor.tmod 10 = 0
    · rw [if_pos h, if_pos h]
      have hpos : 0 < minor.natAbs := Int.natAbs_pos.mpr h.1
      have hlt : (minor.tdiv 10).natAbs < k := by
        rw [Int.natAbs_tdiv, ← hk]
        exact Nat.div_lt_self hpos (by decide)
      have hstep := ih _ hlt (minor.tdiv 10) rfl
      obtain ⟨j, hj⟩ : ∃ j, k = j + 1 := ⟨k - 1, by omega⟩
      subst hj
      exact minorLoopFuel_mono hstep (by omega)
    · rw [if_neg h, if_neg h]

end Version

/-! ## The buffer resolution loop -/

section ResolveLoop

variable {σ : Type}

theorem setBufferUri_length (doc : Document) (i : Nat) (u : String) :
    (doc.setBufferUri i u).buffers.length = doc.buffers.length := by
  simp [Document.setBufferUri]

theorem setBufferUri_images (doc : Document) (i : Nat) (u : String) :
    (doc.setBufferUri i u).images = doc.images := rfl

theorem setBufferUri_getElem?_eq (doc : Document) (i : Nat) (u : String) (buf : Buffer)
    (h : doc.buffers[i]? = some buf) :
    (doc.setBufferUri i u).buffers[i]? = some { buf with uri := u } := by
  simp [Document.setBufferUri, h]

theorem setBufferUri_getElem?_ne (doc : Document) {i j : Nat} (u : String) (h : i ≠ j) :
    (doc.setBufferUri i u).buffers[j]? = doc.buffers[j]? := by
  simp [Document.setBufferUri, h]

/-- One iteration that completes: the buffer and the blob exist, the uri of
the buffer is the reply of the writer or the inline reference, and the call
(if made) is appended to the trace. -/
theorem resolveBuffer_none {options_ : ConvertOptions σ} {w : GLTFWriter σ}
    {blobs : List (List Byte)} {nB i : Nat} {st : ResolveState σ}
    (h : (Converter.resolveBuffer options_ w blobs nB i st).1 = none) :
    ∃ buf blob r, st.document.buffers[i]? = some buf ∧ blobs[i]? = some blob ∧
      (Converter.resolveBuffer options_ w blobs nB i st).2.document =
        st.document.setBufferUri i (Option.getD r (dataUri blob)) ∧
      (options_.useDataUriForBuffers = true →
        r = none ∧ (Converter.resolveBuffer options_ w blobs nB i st).2.calls = st.calls) ∧
      (options_.useDataUriForBuffers = false →
        (Converter.resolveBuffer options_ w blobs nB i st).2.calls =
          st.calls ++ [⟨blob, blob.length, i, nB != 1, .returned r⟩]) := by
  unfold Converter.resolveBuffer at h ⊢
  cases hb : st.document.buffers[i]? with
  | none => simp [hb] at h
  | some buf =>
    cases hbl : blobs[i]? with
    | none => simp [hb, hbl] at h
    | some blob =>
      cases hf : options_.useDataUriForBuffers with
      | true =>
        refine ⟨buf, blob, none, rfl, rfl, ?_, ?_, ?_⟩
        · simp
        · simp
        · simp
      | false =>
        simp only [hb, hbl, hf] at h ⊢
        cases hw : w.buffer st.writerState blob blob.length i (nB != 1) with
        | mk reply s1 =>
          cases reply with
          | raised what => simp [hw] at h
          | returned r =>
            refine ⟨buf, blob, r, ?_, ?_, ?_, ?_, ?_⟩
            · simp
            · simp
            · simp
            · simp
            · simp

/-- One iteration that is left by an exception: either a buffer or a blob is
missing, or the writer was called, raised, and nothing was assigned. -/
theorem resolveBuffer_some {options_ : ConvertOptions σ} {w : GLTFWriter σ}
    {blobs : List (List Byte)} {nB i : Nat} {st : ResolveState σ} {e : ConvertError}
    (h : (Converter.resolveBuffer options_ w blobs nB i st).1 = some e) :
    (e = .outOfRange ∧ (st.document.buffers[i]? = none ∨ blobs[i]? = none) ∧
      (Converter.resolveBuffer options_ w blobs nB i st).2 = st) ∨
    (∃ what blob, e = .writer what ∧ options_.useDataUriForBuffers = false ∧
      blobs[i]? = some blob ∧
      (Converter.resolveBuffer options_ w blobs nB i st).2.document = st.document ∧
      (Converter.resolveBuffer options_ w blobs nB i st).2.calls =
        st.calls ++ [⟨blob, blob.length, i, nB != 1, .raised what⟩]) := by
  unfold Converter.resolveBuffer at h ⊢
  cases hb : st.document.buffers[i]? with
  | none =>
    left
    simp only [hb] at h
    simp at h
    exact ⟨h.symm, Or.inl rfl, by simp⟩
  | some buf =>
    cases hbl : blobs[i]? with
    | none =>
      left
      simp only [hb, hbl] at h
      simp at h
      exact ⟨h.symm, Or.inr rfl, by simp⟩
    | some blob =>
      cases hf : options_.useDataUriForBuffers with
      | true => simp [hb, hbl, hf] at h
      | false =>
        simp only [hb, hbl, hf] at h ⊢
        cases hw : w.buffer st.writerState blob blob.length i (nB != 1) with
        | mk reply s1 =>
          cases reply with
          | returned r => simp [hw] at h
          | raised what =>
            right
            simp [hw] at h
            exact ⟨what, blob, h.symm, by simp, by simp, by simp, by simp⟩

/-- With `useDataUriForBuffers` set, an iteration does not touch the trace of
writer calls. -/
theorem resolveBuffer_calls_of_useDataUri {options_ : ConvertOptions σ} {w : GLTFWriter σ}
    {blobs : List (List Byte)} {nB i : Nat} {st : ResolveState σ}
    (hf : options_.useDataUriForBuffers = true) :
    (Converter.resolveBuffer options_ w blobs nB i st).2.calls = st.calls := by
  unfold Converter.resolveBuffer
  cases st.document.buffers[i]? <;> cases blobs[i]? <;> simp [hf]

theorem forIndices_calls_of_useDataUri {options_ : ConvertOptions σ} {w : GLTFWriter σ}
    {blobs : List (List Byte)} {nB : Nat} (hf : options_.useDataUriForBuffers = true)
    (l : List Nat) : ∀ st : ResolveState σ,
    (forIndices (Converter.resolveBuffer options_ w blobs nB) l st).2.calls = st.calls := by
  induction l with
  | nil => intro st; rfl
  | cons i rest ih =>
    intro st
    have hstep := @resolveBuffer_calls_of_useDataUri σ options_ w blobs nB i st hf
    simp only [forIndices]
    cases hbody : Converter.resolveBuffer options_ w blobs nB i st with
    | mk err st1 =>
      rw [hbody] at hstep
      cases err with
      | none => simp only; rw [ih st1]; exact hstep
      | some e => exact hstep

/-- The loop over `s, s+1, ..., s+n-1` when it completes. -/
theorem forIndices_none {options_ : ConvertOptions σ} {w : GLTFWriter σ}
    {blobs : List (List Byte)} {nB : Nat} (n : Nat) : ∀ (s : Nat) (st : ResolveState σ),
    (forIndices (Converter.resolveBuffer options_ w blobs nB) (List.range' s n) st).1 = none →
    (forIndices (Converter.resolveBuffer options_ w blobs nB) (List.range' s n)
        st).2.document.images = st.document.images ∧
    (forIndices (Converter.resolveBuffer options_ w blobs nB) (List.range' s n)
        st).2.document.buffers.length = st.document.buffers.length ∧
    (∀ j, j < s ∨ s + n ≤ j →
      (forIndices (Converter.resolveBuffer options_ w blobs nB) (List.range' s n)
        st).2.document.buffers[j]? = st.document.buffers[j]?) ∧
    ∃ cs : List WriterCall,
      (forIndices (Converter.resolveBuffer options_ w blobs nB) (List.range' s n)
        st).2.calls = st.calls ++ cs ∧
      (options_.useDataUriForBuffers = true → cs = []) ∧
      (options_.useDataUriForBuffers = false → cs.length = n) ∧
      ∀ j, s ≤ j → j < s + n → ∃ buf blob r,
        st.document.buffers[j]? = some buf ∧ blobs[j]? = some blob ∧
        (forIndices (Converter.resolveBuffer options_ w blobs nB) (List.range' s n)
          st).2.document.buffers[j]? = some { buf with uri := Option.getD r (dataUri blob) } ∧
        (options_.useDataUriForBuffers = true → r = none) ∧
        (options_.useDataUriForBuffers = false →
          cs[j - s]? = some ⟨blob, blob.length, j, nB != 1, .returned r⟩) := by
  induction n with
  | zero =>
    intro s st _
    refine ⟨rfl, rfl, fun _ _ => rfl, [], by simp [forIndices], fun _ => rfl, fun _ => rfl, ?_⟩
    intro j h1 h2
    omega
  | succ n ih =>
    intro s st h
    rw [List.range'_succ] at h ⊢
    simp only [forIndices] at h ⊢
    cases hbody : Converter.resolveBuffer options_ w blobs nB s st with
    | mk err st1 =>
      rw [hbody] at h
      cases err with
      | some e => simp at h
      | none =>
        simp only at h ⊢
        obtain ⟨buf, blob, r, hbuf, hblob, hdoc, hcT, hcF⟩ :=
          @resolveBuffer_none σ options_ w blobs nB s st (by rw [hbody])
        rw [hbody] at hdoc hcT hcF
        simp only at hdoc hcT hcF
        obtain ⟨himg, hlen, hout, cs1, hcalls, hcsT, hcsF, hin⟩ := ih (s + 1) st1 h
        have hs : st1.document.buffers[s]? =
            some { buf with uri := Option.getD r (dataUri blob) } := by
          rw [hdoc]; exact setBufferUri_getElem?_eq _ _ _ _ hbuf
        have hne : ∀ j, s ≠ j → st1.document.buffers[j]? = st.document.buffers[j]? := by
          intro j hj; rw [hdoc]; exact setBufferUri_getElem?_ne _ _ hj
        refine ⟨?_, ?_, ?_, ?_⟩
        · rw [himg, hdoc]; rfl
        · rw [hlen, hdoc]; exact setBufferUri_length _ _ _
        · intro j hj
          rw [hout j (by omega), hne j (by omega)]
        · cases hf : options_.useDataUriForBuffers with
          | true =>
            refine ⟨[], ?_, fun _ => rfl, fun hc => by simp at hc, ?_⟩
            · rw [hcalls, hcsT hf, (hcT hf).2]
            · intro j h1 h2
              by_cases hj : j = s
              · subst hj
                refine ⟨buf, blob, none, hbuf, hblob, ?_, fun _ => rfl, fun hc => by simp at hc⟩
                rw [hout j (by omega), hs, (hcT hf).1]
              · obtain ⟨buf1, blob1, r1, hb1, hbl1, hres1, hr1, _⟩ :=
                  hin j (by omega) (by omega)
                refine ⟨buf1, blob1, r1, ?_, hbl1, hres1, fun _ => hr1 hf,
                  fun hc => by simp at hc⟩
                rw [← hne j (by omega)]; exact hb1
          | false =>
            refine ⟨⟨blob, blob.length, s, nB != 1, .returned r⟩ :: cs1, ?_,
              fun hc => by simp at hc, ?_, ?_⟩
            · rw [hcalls, hcF hf]; simp
            · intro _; simp [hcsF hf]
            · intro j h1 h2
              by_cases hj : j = s
              · subst hj
                refine ⟨buf, blob, r, hbuf, hblob, ?_, fun hc => by simp at hc, ?_⟩
                · rw [hout j (by omega), hs]
                · intro _; simp
              · obtain ⟨buf1, blob1, r1, hb1, hbl1, hres1, _, hc1⟩ :=
                  hin j (by omega) (by omega)
                refine ⟨buf1, blob1, r1, ?_, hbl1, hres1, fun hc => by simp at hc, ?_⟩
                · rw [← hne j (by omega)]; exact hb1
                · intro _
                  have hidx : j - s = (j - (s + 1)) + 1 := by omega
                  rw [hidx, List.getElem?_cons_succ]
                  exact hc1 hf

/-- The loop over `s, s+1, ..., s+n-1` when an exception leaves it: every
call before the exception returned, and either a buffer or a blob is
missing, or the writer raised at some index `i`; then the call at `i` is the
last one and no buffer from `i` on was assigned. -/
theorem forIndices_some {options_ : ConvertOptions σ} {w : GLTFWriter σ}
    {blobs : List (List Byte)} {nB : Nat} (n : Nat) :
    ∀ (s : Nat) (st : ResolveState σ) (e : ConvertError),
    (forIndices (Converter.resolveBuffer options_ w blobs nB) (List.range' s n) st).1 = some e →
    (forIndices (Converter.resolveBuffer options_ w blobs nB) (List.range' s n)
        st).2.document.buffers.length = st.document.buffers.length ∧
    ∃ cs : List WriterCall, (∀ c ∈ cs, s ≤ c.index ∧ ∃ r, c.reply = .returned r) ∧
    ((e = .outOfRange ∧ (st.document.buffers.length < s + n ∨ blobs.length < s + n) ∧
      (forIndices (Converter.resolveBuffer options_ w blobs nB) (List.range' s n)
          st).2.calls = st.calls ++ cs) ∨
     ∃ what i blob, e = .writer what ∧ options_.useDataUriForBuffers = false ∧
       s ≤ i ∧ i < s + n ∧ blobs[i]? = some blob ∧
       (forIndices (Converter.resolveBuffer options_ w blobs nB) (List.range' s n)
          st).2.calls =
         st.calls ++ cs ++ [⟨blob, blob.length, i, nB != 1, .raised what⟩] ∧
       cs.length = i - s ∧
       (∀ c ∈ cs, c.index < i) ∧
       (∀ j, i ≤ j →
         (forIndices (Converter.resolveBuffer options_ w blobs nB) (List.range' s n)
           st).2.document.buffers[j]? = st.document.buffers[j]?)) := by
  induction n with
  | zero =>
    intro s st e h
    simp [forIndices] at h
  | succ n ih =>
    intro s st e h
    rw [List.range'_succ] at h ⊢
    simp only [forIndices] at h ⊢
    cases hbody : Converter.resolveBuffer options_ w blobs nB s st with
    | mk err st1 =>
      rw [hbody] at h
      cases err with
      | some e1 =>
        simp only at h ⊢
        have he : e1 = e := by simpa using h
        subst he
        have hs := @resolveBuffer_some σ options_ w blobs nB s st e1 (by rw [hbody])
        rw [hbody] at hs
        simp only at hs
        rcases hs with ⟨he, hmiss, hst⟩ | ⟨what, blob, he, hf, hblob, hdoc, hcalls⟩
        · refine ⟨by rw [hst], [], by simp, Or.inl ⟨he, ?_, by simp [hst]⟩⟩
          rcases hmiss with hm | hm
          · left
            have := List.getElem?_eq_none_iff.mp hm
            omega
          · right
            have := List.getElem?_eq_none_iff.mp hm
            omega
        · refine ⟨by rw [hdoc], [], by simp, Or.inr ⟨what, s, blob, he, hf, le_refl _,
            by omega, hblob, by simpa using hcalls, by simp, by simp, ?_⟩⟩
          intro j _
          rw [hdoc]
      | none =>
        simp only at h ⊢
        obtain ⟨buf, blob0, r, hbuf, hblob0, hdoc, hcT, hcF⟩ :=
          @resolveBuffer_none σ options_ w blobs nB s st (by rw [hbody])
        rw [hbody] at hdoc hcT hcF
        simp only at hdoc hcT hcF
        have hlen1 : st1.document.buffers.length = st.document.buffers.length := by
          rw [hdoc]; exact setBufferUri_length _ _ _
        obtain ⟨hlen, cs, hret, hrest⟩ := ih (s + 1) st1 e h
        refine ⟨by rw [hlen, hlen1], ?_⟩
        cases hf : options_.useDataUriForBuffers with
        | true =>
          refine ⟨cs, fun c hc => ⟨by have := (hret c hc).1; omega, (hret c hc).2⟩, ?_⟩
          rcases hrest with ⟨he, hshort, hcalls⟩ | ⟨what, i, blob, he, hf2, _⟩
          · left
            refine ⟨he, ?_, by rw [hcalls, (hcT hf).2]⟩
            rcases hshort with hsh | hsh
            · left; omega
            · right; omega
          · rw [hf] at hf2; simp at hf2
        | false =>
          refine ⟨⟨blob0, blob0.length, s, nB != 1, .returned r⟩ :: cs, ?_, ?_⟩
          · intro c hc
            rcases List.mem_cons.mp hc with hc0 | hc1
            · subst hc0
              exact ⟨le_refl _, r, rfl⟩
            · exact ⟨by have := (hret c hc1).1; omega, (hret c hc1).2⟩
          · rcases hrest with ⟨he, hshort, hcalls⟩ | ⟨what, i, blob, he, _, hsi, hin, hblob,
              hcalls, hcslen, hcs, hkeep⟩
            · left
              refine ⟨he, ?_, by rw [hcalls, hcF hf]; simp⟩
              rcases hshort with hsh | hsh
              · left; omega
              · right; omega
            · right
              refine ⟨what, i, blob, he, rfl, by omega, by omega, hblob, ?_, ?_, ?_, ?_⟩
              · rw [hcalls, hcF hf]; simp
              · simp [hcslen]; omega
              · intro c hc
                rcases List.mem_cons.mp hc with hc0 | hc1
                · subst hc0
                  show s < i
                  omega
                · exact hcs c hc1
              · intro j hj
                rw [hkeep j hj, hdoc]
                exact setBufferUri_getElem?_ne _ _ (by omega)

theorem resolveBuffers_eq (options_ : ConvertOptions σ) (w : GLTFWriter σ)
    (blobs : List (List Byte)) (st : ResolveState σ) :
    Converter.resolveBuffers options_ w blobs st =
      forIndices (Converter.resolveBuffer options_ w blobs (st.document.buffers.length % 2 ^ 32))
        (List.range' 0 (st.document.buffers.length % 2 ^ 32)) st := by
  simp only [Converter.resolveBuffers, List.range_eq_range']

theorem resolveImages_eq (doc : Document) : Converter.resolveImages doc = doc := by
  unfold Converter.resolveImages
  induction List.range doc.images.length with
  | nil => rfl
  | cons _ _ ih => simp [ih]

/-- The buffer block when no recorded call of the writer raised and there is
a blob for every buffer: the block completes, the first
`length % 2^32` buffers are resolved in place from the blob at the same
position, and nothing else changes. -/
theorem resolveBuffers_quiet (options_ : ConvertOptions σ) (w : GLTFWriter σ)
    (doc : Document) (blobs : List (List Byte)) (s0 : σ)
    (hN : doc.buffers.length = blobs.length)
    (hquiet : ∀ c ∈ (Converter.resolveBuffers options_ w blobs ⟨doc, s0, []⟩).2.calls,
      c.reply.isRaised = false) :
    (Converter.resolveBuffers options_ w blobs ⟨doc, s0, []⟩).1 = none ∧
    (Converter.resolveBuffers options_ w blobs ⟨doc, s0, []⟩).2.document.images = doc.images ∧
    (Converter.resolveBuffers options_ w blobs ⟨doc, s0, []⟩).2.document.buffers.length =
      doc.buffers.length ∧
    (∀ j, doc.buffers.length % 2 ^ 32 ≤ j →
      (Converter.resolveBuffers options_ w blobs ⟨doc, s0, []⟩).2.document.buffers[j]? =
        doc.buffers[j]?) ∧
    (options_.useDataUriForBuffers = true →
      (Converter.resolveBuffers options_ w blobs ⟨doc, s0, []⟩).2.calls = []) ∧
    (options_.useDataUriForBuffers = false →
      (Converter.resolveBuffers options_ w blobs ⟨doc, s0, []⟩).2.calls.length =
        doc.buffers.length % 2 ^ 32) ∧
    ∀ j, j < doc.buffers.length % 2 ^ 32 → ∃ buf blob r,
      doc.buffers[j]? = some buf ∧ blobs[j]? = some blob ∧
      (Converter.resolveBuffers options_ w blobs ⟨doc, s0, []⟩).2.document.buffers[j]? =
        some { buf with uri := Option.getD r (dataUri blob) } ∧
      (options_.useDataUriForBuffers = true → r = none) ∧
      (options_.useDataUriForBuffers = false →
        (Converter.resolveBuffers options_ w blobs ⟨doc, s0, []⟩).2.calls[j]? =
          some ⟨blob, blob.length, j, doc.buffers.length % 2 ^ 32 != 1, .returned r⟩) := by
  rw [resolveBuffers_eq] at hquiet ⊢
  simp only at hquiet ⊢
  have hmod : doc.buffers.length % 2 ^ 32 ≤ doc.buffers.length := Nat.mod_le _ _
  cases herr : (forIndices
      (Converter.resolveBuffer options_ w blobs (doc.buffers.length % 2 ^ 32))
      (List.range' 0 (doc.buffers.length % 2 ^ 32)) ⟨doc, s0, []⟩).1 with
  | some e =>
    exfalso
    obtain ⟨_, cs, _, hcase⟩ := forIndices_some _ _ _ e herr
    rcases hcase with ⟨_, hshort, _⟩ | ⟨what, i, blob, _, _, _, _, _, hcalls, _⟩
    · simp only at hshort
      omega
    · have hmem := hquiet ⟨blob, blob.length, i, doc.buffers.length % 2 ^ 32 != 1, .raised what⟩
        (by rw [hcalls]; simp)
      simp [WriterReply.isRaised] at hmem
  | none =>
    obtain ⟨himg, hlen, hout, cs, hcalls, hcsT, hcsF, hin⟩ := forIndices_none _ _ _ herr
    simp only [List.nil_append] at hcalls
    refine ⟨rfl, himg, hlen, fun j hj => hout j (Or.inr (by omega)), ?_, ?_, ?_⟩
    · intro hf; rw [hcalls, hcsT hf]
    · intro hf; rw [hcalls, hcsF hf]
    · intro j hj
      obtain ⟨buf, blob, r, h1, h2, h3, h4, h5⟩ := hin j (Nat.zero_le _) (by omega)
      refine ⟨buf, blob, r, h1, h2, h3, h4, ?_⟩
      intro hf
      rw [hcalls]
      simpa using h5 hf

/-- Every recorded call of a quiet run: it is the call for the buffer at its
index, made with the blob at that index, and the uri of that buffer is the
reply, or the inline reference of the blob when there is no reply. -/
theorem resolveBuffers_call (options_ : ConvertOptions σ) (w : GLTFWriter σ)
    (doc : Document) (blobs : List (List Byte)) (s0 : σ)
    (hN : doc.buffers.length = blobs.length)
    (hquiet : ∀ c ∈ (Converter.resolveBuffers options_ w blobs ⟨doc, s0, []⟩).2.calls,
      c.reply.isRaised = false)
    (c : WriterCall)
    (hc : c ∈ (Converter.resolveBuffers options_ w blobs ⟨doc, s0, []⟩).2.calls) :
    ∃ buf r, c.reply = .returned r ∧ c.index < doc.buffers.length % 2 ^ 32 ∧
      doc.buffers[c.index]? = some buf ∧ blobs[c.index]? = some c.data ∧
      (Converter.resolveBuffers options_ w blobs ⟨doc, s0, []⟩).2.document.buffers[c.index]? =
        some { buf with uri := Option.getD r (dataUri c.data) } := by
  obtain ⟨_, _, _, _, hT, hF, hin⟩ := resolveBuffers_quiet options_ w doc blobs s0 hN hquiet
  cases hf : options_.useDataUriForBuffers with
  | true => rw [hT hf] at hc; simp at hc
  | false =>
    obtain ⟨k, hk, hck⟩ := List.getElem_of_mem hc
    rw [hF hf] at hk
    obtain ⟨buf, blob, r, h1, h2, h3, _, h5⟩ := hin k hk
    have hsome := h5 hf
    rw [List.getElem?_eq_getElem (by rw [hF hf]; exact hk), hck] at hsome
    have hceq : c = ⟨blob, blob.length, k, doc.buffers.length % 2 ^ 32 != 1, .returned r⟩ := by
      simpa using hsome
    subst hceq
    exact ⟨buf, r, rfl, hk, h1, h2, h3⟩

end ResolveLoop

/-! ## Properties of the buffer resolution -/

/-- One iteration that completes with the writer step enabled: the reply
recorded in the trace is what `buffer` returned on the state of the writer
before the call, and the state after the call is the one `buffer` gave. -/
theorem resolveBuffer_none_writer {σ : Type} {options_ : ConvertOptions σ} {w : GLTFWriter σ}
    {blobs : List (List Byte)} {nB i : Nat} {st : ResolveState σ}
    (hf : options_.useDataUriForBuffers = false)
    (h : (Converter.resolveBuffer options_ w blobs nB i st).1 = none) :
    ∃ blob r, blobs[i]? = some blob ∧
      w.buffer st.writerState blob blob.length i (nB != 1) =
        (.returned r, (Converter.resolveBuffer options_ w blobs nB i st).2.writerState) ∧
      (Converter.resolveBuffer options_ w blobs nB i st).2.calls =
        st.calls ++ [⟨blob, blob.length, i, nB != 1, .returned r⟩] := by
  unfold Converter.resolveBuffer at h ⊢
  cases hb : st.document.buffers[i]? with
  | none => simp [hb] at h
  | some buf =>
    cases hbl : blobs[i]? with
    | none => simp [hb, hbl] at h
    | some blob =>
      simp only [hb, hbl, hf] at h ⊢
      cases hw : w.buffer st.writerState blob blob.length i (nB != 1) with
      | mk reply s1 =>
        cases reply with
        | raised what => simp [hw] at h
        | returned r =>
          refine ⟨blob, r, ?_, ?_, ?_⟩
          · simp
          · exact hw
          · simp

/-- The completed loop over `s, ..., s+n-1` with the writer step enabled:
the states of the writer form a chain that starts at the initial state, and
the call recorded for each index carries what `buffer` returned on the
state before it. -/
theorem forIndices_none_states {σ : Type} {options_ : ConvertOptions σ} {w : GLTFWriter σ}
    {blobs : List (List Byte)} {nB : Nat} (hf : options_.useDataUriForBuffers = false)
    (n : Nat) : ∀ (s : Nat) (st : ResolveState σ),
    (forIndices (Converter.resolveBuffer options_ w blobs nB) (List.range' s n) st).1 = none →
    ∃ (states : List σ) (cs : List WriterCall),
      states.length = n + 1 ∧ states[0]? = some st.writerState ∧
      (forIndices (Converter.resolveBuffer options_ w blobs nB) (List.range' s n)
        st).2.calls = st.calls ++ cs ∧
      ∀ k, k < n → ∃ blob r a b,
        blobs[s + k]? = some blob ∧ states[k]? = some a ∧ states[k + 1]? = some b ∧
        w.buffer a blob blob.length (s + k) (nB != 1) = (.returned r, b) ∧
        cs[k]? = some ⟨blob, blob.length, s + k, nB != 1, .returned r⟩ := by
  induction n with
  | zero =>
    intro s st _
    refine ⟨[st.writerState], [], rfl, rfl, by simp [forIndices], ?_⟩
    intro k hk
    omega
  | succ n ih =>
    intro s st h
    rw [List.range'_succ] at h ⊢
    simp only [forIndices] at h ⊢
    cases hbody : Converter.resolveBuffer options_ w blobs nB s st with
    | mk err st1 =>
      rw [hbody] at h
      cases err with
      | some e => simp at h
      | none =>
        simp only at h ⊢
        obtain ⟨blob0, r0, hblob0, hw0, hcalls0⟩ :=
          @resolveBuffer_none_writer σ options_ w blobs nB s st hf (by rw [hbody])
        rw [hbody] at hw0 hcalls0
        simp only at hw0 hcalls0
        obtain ⟨states1, cs1, hlen1, hhead1, hcalls1, hin1⟩ := ih (s + 1) st1 h
        refine ⟨st.writerState :: states1,
          ⟨blob0, blob0.length, s, nB != 1, .returned r0⟩ :: cs1, ?_, ?_, ?_, ?_⟩
        · simp [hlen1]
        · simp
        · rw [hcalls1, hcalls0]; simp
        · intro k hk
          cases k with
          | zero =>
            refine ⟨blob0, r0, st.writerState, st1.writerState, ?_, ?_, ?_, ?_, ?_⟩
            · simpa using hblob0
            · simp
            · simpa using hhead1
            · simpa using hw0
            · simp
          | succ j =>
            obtain ⟨blob, r, a, b, h1, h2, h3, h4, h5⟩ := hin1 j (by omega)
            have hidx : s + 1 + j = s + (j + 1) := by omega
            rw [hidx] at h1 h4 h5
            refine ⟨blob, r, a, b, h1, ?_, ?_, h4, ?_⟩
            · simpa using h2
            · simpa using h3
            · simpa using h5

/-- C1 (amended): buffer resolution for a document with `N < 2^32` buffers
and `N` blobs, with `useDataUriForBuffers` false and a writer that does not
raise.  The block completes.  The writer is called once for every index
`i < N`, on the state left by the call before, with blob `i`; if that call
of `buffer` returned a reference `u`, the final uri of buffer `i` is `u`, and
if it returned no reference, the final uri is
`"data:application/octet-stream;base64,"` followed by the base64 text of
blob `i`.  In particular, for a writer whose reply is a function `f` of its
arguments, the final uri of buffer `i` is given by `f` at the arguments of
index `i` alone.  The result for index `i` does not depend on the replies
for other indices: a run with any other writer that gives the same reply
for `i` ends with the same buffer `i`. -/
theorem resolveBuffers_uri_of_writer_reply {σ : Type} (options_ : ConvertOptions σ)
    (w : GLTFWriter σ) (doc : Document) (blobs : List (List Byte)) (s0 : σ)
    (hN : doc.buffers.length = blobs.length)
    (h32 : doc.buffers.length < 2 ^ 32)
    (hf : options_.useDataUriForBuffers = false)
    (hquiet : ∀ c ∈ (Converter.resolveBuffers options_ w blobs ⟨doc, s0, []⟩).2.calls,
      c.reply.isRaised = false) :
    (Converter.resolveBuffers options_ w blobs ⟨doc, s0, []⟩).1 = none ∧
    (∃ states : List σ, states.length = doc.buffers.length + 1 ∧ states[0]? = some s0 ∧
      ∀ i, i < doc.buffers.length → ∃ buf blob s s1 r,
        doc.buffers[i]? = some buf ∧ blobs[i]? = some blob ∧
        states[i]? = some s ∧ states[i + 1]? = some s1 ∧
        w.buffer s blob blob.length i (doc.buffers.length != 1) = (.returned r, s1) ∧
        (Converter.resolveBuffers options_ w blobs ⟨doc, s0, []⟩).2.calls[i]? =
          some ⟨blob, blob.length, i, doc.buffers.length != 1, .returned r⟩ ∧
        (∀ u, r = some u →
          (Converter.resolveBuffers options_ w blobs ⟨doc, s0, []⟩).2.document.buffers[i]? =
            some { buf with uri := u }) ∧
        (r = none →
          (Converter.resolveBuffers options_ w blobs ⟨doc, s0, []⟩).2.document.buffers[i]? =
            some { buf with uri := "data:application/octet-stream;base64," ++
              cppcodec.base64_rfc4648.encode blob })) ∧
    (∀ f : List Byte → Nat → Nat → Bool → Option String,
      (∀ s d n i m, (w.buffer s d n i m).1 = .returned (f d n i m)) →
      ∀ (i : Nat) (buf : Buffer) (blob : List Byte),
        doc.buffers[i]? = some buf → blobs[i]? = some blob →
        (Converter.resolveBuffers options_ w blobs ⟨doc, s0, []⟩).2.document.buffers[i]? =
          some { buf with uri := (Option.getD
            (f blob blob.length i (doc.buffers.length != 1))
            ("data:application/octet-stream;base64," ++
              cppcodec.base64_rfc4648.encode blob)) }) ∧
    (∀ (τ : Type) (options2 : ConvertOptions τ) (w2 : GLTFWriter τ) (t0 : τ),
      options2.useDataUriForBuffers = false →
      (∀ c ∈ (Converter.resolveBuffers options2 w2 blobs ⟨doc, t0, []⟩).2.calls,
        c.reply.isRaised = false) →
      ∀ c1 ∈ (Converter.resolveBuffers options_ w blobs ⟨doc, s0, []⟩).2.calls,
      ∀ c2 ∈ (Converter.resolveBuffers options2 w2 blobs ⟨doc, t0, []⟩).2.calls,
        c1.index = c2.index → c1.reply = c2.reply →
        (Converter.resolveBuffers options_ w blobs ⟨doc, s0, []⟩).2.document.buffers[c1.index]? =
          (Converter.resolveBuffers options2 w2 blobs ⟨doc, t0, []⟩).2.document.buffers[c1.index]?) := by
  have hmod : doc.buffers.length % 2 ^ 32 = doc.buffers.length := Nat.mod_eq_of_lt h32
  obtain ⟨hok, _, _, _, _, hF, hin⟩ := resolveBuffers_quiet options_ w doc blobs s0 hN hquiet
  rw [hmod] at hin
  have hchain : ∃ states : List σ, states.length = doc.buffers.length + 1 ∧
      states[0]? = some s0 ∧
      ∀ i, i < doc.buffers.length → ∃ buf blob s s1 r,
        doc.buffers[i]? = some buf ∧ blobs[i]? = some blob ∧
        states[i]? = some s ∧ states[i + 1]? = some s1 ∧
        w.buffer s blob blob.length i (doc.buffers.length != 1) = (.returned r, s1) ∧
        (Converter.resolveBuffers options_ w blobs ⟨doc, s0, []⟩).2.calls[i]? =
          some ⟨blob, blob.length, i, doc.buffers.length != 1, .returned r⟩ ∧
        (Converter.resolveBuffers options_ w blobs ⟨doc, s0, []⟩).2.document.buffers[i]? =
          some { buf with uri := Option.getD r (dataUri blob) } := by
    have hok1 := hok
    rw [resolveBuffers_eq] at hok1
    simp only at hok1
    obtain ⟨states, cs, hlen, hhead, hcalls, hst⟩ := forIndices_none_states hf _ _ _ hok1
    have hcalls1 : (Converter.resolveBuffers options_ w blobs ⟨doc, s0, []⟩).2.calls = cs := by
      rw [resolveBuffers_eq]
      simpa using hcalls
    rw [hmod] at hlen hst
    refine ⟨states, hlen, hhead, ?_⟩
    intro i hi
    obtain ⟨buf, blob, r, h1, h2, h3, _, h5⟩ := hin i hi
    obtain ⟨blob1, r1, a, b, g1, g2, g3, g4, g5⟩ := hst i hi
    rw [Nat.zero_add] at g1 g4 g5
    have hcall := h5 hf
    rw [hcalls1, g5] at hcall
    have hblob : blob1 = blob := by
      rw [h2] at g1; simpa using g1.symm
    have hr : r1 = r := by
      simp only [Option.some.injEq, WriterCall.mk.injEq, WriterReply.returned.injEq] at hcall
      exact hcall.2.2.2.2
    subst hblob; subst hr
    exact ⟨buf, blob1, a, b, r1, h1, h2, g2, g3, g4, h5 hf, h3⟩
  obtain ⟨states, hlen, hhead, hst⟩ := hchain
  refine ⟨hok, ⟨states, hlen, hhead, ?_⟩, ?_, ?_⟩
  · intro i hi
    obtain ⟨buf, blob, s, s1, r, h1, h2, h3, h4, h5, h6, h7⟩ := hst i hi
    refine ⟨buf, blob, s, s1, r, h1, h2, h3, h4, h5, h6, ?_, ?_⟩
    · intro u hu
      rw [h7, hu]; rfl
    · intro hu
      rw [h7, hu]; rfl
  · intro f hfun i buf blob hb hbl
    have hi : i < doc.buffers.length := by
      by_contra hge
      rw [List.getElem?_eq_none (by omega)] at hb
      simp at hb
    obtain ⟨buf1, blob1, s, s1, r, h1, h2, _, _, h5, _, h7⟩ := hst i hi
    have hbuf : buf1 = buf := by rw [hb] at h1; simpa using h1.symm
    have hblob : blob1 = blob := by rw [hbl] at h2; simpa using h2.symm
    subst hbuf; subst hblob
    have hreply := hfun s blob1 blob1.length i (doc.buffers.length != 1)
    rw [h5] at hreply
    have hr : r = f blob1 blob1.length i (doc.buffers.length != 1) := by
      simpa using hreply
    rw [h7, hr]; rfl
  · intro τ options2 w2 t0 _ hquiet2 c1 hc1 c2 hc2 hidx hrep
    obtain ⟨buf1, r1, hr1, _, hb1, hbl1, hres1⟩ :=
      resolveBuffers_call options_ w doc blobs s0 hN hquiet c1 hc1
    obtain ⟨buf2, r2, hr2, _, hb2, hbl2, hres2⟩ :=
      resolveBuffers_call options2 w2 doc blobs t0 hN hquiet2 c2 hc2
    rw [← hidx] at hb2 hbl2 hres2
    have hbuf : buf1 = buf2 := by rw [hb1] at hb2; simpa using hb2
    have hdata : c1.data = c2.data := by rw [hbl1] at hbl2; simpa using hbl2
    have hr : r1 = r2 := by rw [hr1, hr2] at hrep; simpa using hrep
    rw [hres1, hres2, hbuf, hdata, hr]

theorem resolveBuffers_uri_of_writer_reply_witness :
    (Converter.resolveBuffers Sample.options Sample.writer Sample.blobs
      ⟨Sample.document, (), []⟩).2.document.buffers[0]? = some ⟨1, "a", "buffer0.bin"⟩ ∧
    (Converter.resolveBuffers Sample.options Sample.writer Sample.blobs
      ⟨Sample.document, (), []⟩).2.document.buffers[1]? =
        some ⟨2, "b", "data:application/octet-stream;base64,AgM="⟩ := by
  have h := (resolveBuffers_uri_of_writer_reply Sample.options Sample.writer Sample.document
    Sample.blobs () rfl (by decide) rfl (by decide)).2.2.1
    (fun _ _ i _ => if i = 0 then some "buffer0.bin" else none)
    (by intro s d n i m; simp only [Sample.writer]; split <;> rfl)
  have henc : "data:application/octet-stream;base64," ++ cppcodec.base64_rfc4648.encode [2, 3] =
      "data:application/octet-stream;base64,AgM=" := by decide
  refine ⟨?_, ?_⟩
  · have h0 := h 0 ⟨1, "a", ""⟩ [1] rfl rfl
    rw [h0]
    rfl
  · have h1 := h 1 ⟨2, "b", ""⟩ [2, 3] rfl rfl
    rw [h1]
    simp only [Nat.succ_ne_zero, if_false, Option.getD_none, henc]

/-- The buffer block with a writer that declines every buffer, on a document
whose buffer count is `1` modulo `2^32` and above 1: the block completes
with a single call, for buffer 0, and buffer 1 is left as it was. -/
theorem resolveBuffers_replicate_abstaining (options_ : ConvertOptions Unit) (n : Nat)
    (b : Buffer) (blob : List Byte)
    (hf : options_.useDataUriForBuffers = false)
    (hn : n % 2 ^ 32 = 1) (h1 : 1 < n) :
    (Converter.resolveBuffers options_ Sample.abstainingWriter (List.replicate n blob)
      ⟨⟨List.replicate n b, []⟩, (), []⟩).1 = none ∧
    (Converter.resolveBuffers options_ Sample.abstainingWriter (List.replicate n blob)
      ⟨⟨List.replicate n b, []⟩, (), []⟩).2.calls =
        [⟨blob, blob.length, 0, false, .returned none⟩] ∧
    (Converter.resolveBuffers options_ Sample.abstainingWriter (List.replicate n blob)
      ⟨⟨List.replicate n b, []⟩, (), []⟩).2.document.buffers[1]? = some b := by
  have hlen : (List.replicate n b).length % 2 ^ 32 = 1 := by simpa using hn
  have hb : (List.replicate n b)[0]? = some b := List.getElem?_replicate_of_lt (by omega)
  have hb1 : (List.replicate n b)[1]? = some b := List.getElem?_replicate_of_lt h1
  have hbl : (List.replicate n blob)[0]? = some blob :=
    List.getElem?_replicate_of_lt (by omega)
  have hrange : List.range 1 = [0] := rfl
  simp only [Converter.resolveBuffers, hlen, hrange, forIndices, Converter.resolveBuffer, hb,
    hbl, hf, Sample.abstainingWriter]
  refine ⟨by simp, by simp, ?_⟩
  simp only [Bool.not_false, if_true, Document.setBufferUri]
  rw [List.getElem?_modify_ne _ _ (by decide)]
  exact hb1

/-- C1 fails as stated at `N = 2^32 + 1` and `i = 1`: the buffer count cast
to `std::uint32_t` is 1, so the loop handles buffer 0 only.  The writer
declines every buffer and never raises, yet buffer 1 keeps its empty uri
instead of the inline reference of its blob. -/
theorem resolveBuffers_leaves_buffer_beyond_uint32 :
    (List.replicate (2 ^ 32 + 1) (⟨0, "", ""⟩ : Buffer)).length =
      (List.replicate (2 ^ 32 + 1) ([] : List Byte)).length ∧
    (∀ s d n i m, (Sample.abstainingWriter.buffer s d n i m).1 = WriterReply.returned none) ∧
    (Converter.resolveBuffers (⟨none, false, false, false, some Sample.abstainingWriter⟩ :
        ConvertOptions Unit) Sample.abstainingWriter (List.replicate (2 ^ 32 + 1) [])
      ⟨⟨List.replicate (2 ^ 32 + 1) ⟨0, "", ""⟩, []⟩, (), []⟩).1 = none ∧
    (Converter.resolveBuffers (⟨none, false, false, false, some Sample.abstainingWriter⟩ :
        ConvertOptions Unit) Sample.abstainingWriter (List.replicate (2 ^ 32 + 1) [])
      ⟨⟨List.replicate (2 ^ 32 + 1) ⟨0, "", ""⟩, []⟩, (), []⟩).2.calls =
        [⟨[], 0, 0, false, .returned none⟩] ∧
    (Converter.resolveBuffers (⟨none, false, false, false, some Sample.abstainingWriter⟩ :
        ConvertOptions Unit) Sample.abstainingWriter (List.replicate (2 ^ 32 + 1) [])
      ⟨⟨List.replicate (2 ^ 32 + 1) ⟨0, "", ""⟩, []⟩, (), []⟩).2.document.buffers[1]? =
        some ⟨0, "", ""⟩ ∧
    dataUri [] = "data:application/octet-stream;base64," :=
  ⟨by rw [List.length_replicate, List.length_replicate],
    fun _ _ _ _ _ => rfl,
    (resolveBuffers_replicate_abstaining ⟨none, false, false, false, some Sample.abstainingWriter⟩
      (2 ^ 32 + 1) ⟨0, "", ""⟩ [] rfl (by norm_num) (by norm_num)).1,
    (resolveBuffers_replicate_abstaining ⟨none, false, false, false, some Sample.abstainingWriter⟩
      (2 ^ 32 + 1) ⟨0, "", ""⟩ [] rfl (by norm_num) (by norm_num)).2.1,
    (resolveBuffers_replicate_abstaining ⟨none, false, false, false, some Sample.abstainingWriter⟩
      (2 ^ 32 + 1) ⟨0, "", ""⟩ [] rfl (by norm_num) (by norm_num)).2.2,
    by decide⟩

theorem resolveBuffers_of_mod_zero {σ : Type} (options_ : ConvertOptions σ)
    (w : GLTFWriter σ) (blobs : List (List Byte)) (st : ResolveState σ)
    (h : st.document.buffers.length % 2 ^ 32 = 0) :
    Converter.resolveBuffers options_ w blobs st = (none, st) := by
  simp only [Converter.resolveBuffers, h, List.range_zero, forIndices]

/-- C2 (amended): for every document with `N < 2^32` buffer descriptors and
`N` blobs, and a writer that does not raise, the buffer block completes and
leaves exactly `N` descriptors; the descriptor at position `i` differs from
the original one only in its uri, which is the reply of the writer called
with blob `i` and index `i`, or the inline reference of blob `i`.  For
`N = 0` the block changes nothing. -/
theorem resolveBuffers_resolves_every_buffer {σ : Type} (options_ : ConvertOptions σ)
    (w : GLTFWriter σ) (doc : Document) (blobs : List (List Byte)) (s0 : σ)
    (hN : doc.buffers.length = blobs.length)
    (h32 : doc.buffers.length < 2 ^ 32)
    (hquiet : ∀ c ∈ (Converter.resolveBuffers options_ w blobs ⟨doc, s0, []⟩).2.calls,
      c.reply.isRaised = false) :
    (Converter.resolveBuffers options_ w blobs ⟨doc, s0, []⟩).1 = none ∧
    (Converter.resolveBuffers options_ w blobs ⟨doc, s0, []⟩).2.document.buffers.length =
      doc.buffers.length ∧
    (Converter.resolveBuffers options_ w blobs ⟨doc, s0, []⟩).2.document.images = doc.images ∧
    (∀ i, i < doc.buffers.length → ∃ buf blob r,
      doc.buffers[i]? = some buf ∧ blobs[i]? = some blob ∧
      (Converter.resolveBuffers options_ w blobs ⟨doc, s0, []⟩).2.document.buffers[i]? =
        some { buf with uri := Option.getD r (dataUri blob) } ∧
      (options_.useDataUriForBuffers = true → r = none) ∧
      (options_.useDataUriForBuffers = false →
        (Converter.resolveBuffers options_ w blobs ⟨doc, s0, []⟩).2.calls[i]? =
          some ⟨blob, blob.length, i, doc.buffers.length != 1, .returned r⟩)) ∧
    (doc.buffers.length = 0 →
      Converter.resolveBuffers options_ w blobs ⟨doc, s0, []⟩ = (none, ⟨doc, s0, []⟩)) := by
  have hmod : doc.buffers.length % 2 ^ 32 = doc.buffers.length := Nat.mod_eq_of_lt h32
  obtain ⟨hok, himg, hlen, _, _, _, hin⟩ := resolveBuffers_quiet options_ w doc blobs s0 hN hquiet
  refine ⟨hok, hlen, himg, ?_, ?_⟩
  · intro i hi
    obtain ⟨buf, blob, r, h1, h2, h3, h4, h5⟩ := hin i (by omega)
    rw [hmod] at h5
    exact ⟨buf, blob, r, h1, h2, h3, h4, h5⟩
  · intro h0
    exact resolveBuffers_of_mod_zero options_ w blobs ⟨doc, s0, []⟩ (by simp [h0])

theorem resolveBuffers_resolves_every_buffer_witness :
    (Converter.resolveBuffers Sample.options Sample.writer Sample.blobs
      ⟨Sample.document, (), []⟩).2.document.buffers.length = 2 :=
  (resolveBuffers_resolves_every_buffer Sample.options Sample.writer Sample.document
    Sample.blobs () rfl (by decide) (by decide)).2.1

/-- A document whose buffer count is a positive multiple of `2^32` is left
as it is by the buffer block. -/
theorem resolveBuffers_replicate_of_mod_zero {σ : Type} (options_ : ConvertOptions σ)
    (w : GLTFWriter σ) (n : Nat) (b : Buffer) (blob : List Byte) (s0 : σ)
    (hn : n % 2 ^ 32 = 0) (hpos : 0 < n) :
    (Converter.resolveBuffers options_ w (List.replicate n blob)
      ⟨⟨List.replicate n b, []⟩, s0, []⟩).2.document.buffers[0]? = some b := by
  rw [resolveBuffers_of_mod_zero _ _ _ _ (by simpa using hn)]
  exact List.getElem?_replicate_of_lt hpos

/-- C2 fails as stated at `N = 2^32`: the buffer count cast to
`std::uint32_t` is 0, the loop does not run, and buffer 0 keeps its empty
uri although inline references are forced and the inline reference of its
blob is not empty. -/
theorem resolveBuffers_skips_two_pow_32_buffers :
    (List.replicate (2 ^ 32) (⟨0, "", ""⟩ : Buffer)).length =
      (List.replicate (2 ^ 32) ([] : List Byte)).length ∧
    (Converter.resolveBuffers Sample.inlineOptions Sample.writer
      (List.replicate (2 ^ 32) ([] : List Byte))
      ⟨⟨List.replicate (2 ^ 32) ⟨0, "", ""⟩, []⟩, (), []⟩).2.document.buffers[0]? =
        some ⟨0, "", ""⟩ ∧
    dataUri [] = "data:application/octet-stream;base64," :=
  ⟨by rw [List.length_replicate, List.length_replicate],
    resolveBuffers_replicate_of_mod_zero Sample.inlineOptions Sample.writer (2 ^ 32)
      ⟨0, "", ""⟩ [] () (Nat.mod_self _) (Nat.two_pow_pos 32),
    by decide⟩

/-! ## Converter::convert as a whole -/

/-- The two ways `Converter::convert` can go: it is left before the buffer
block (an earlier stage threw), or the stages before the block succeeded and
the outcome is that of the block. -/
theorem Converter.convert_cases {σ Json : Type} (sdk : FbxSdk) (pipeline : Pipeline Json)
    (options_ : ConvertOptions σ) (s0 : σ) :
    ((sdk.importInitOk = false ∨ sdk.importOk = false ∨ pipeline.sceneConvert ≠ none ∨
        ∃ what, pipeline.build = .error what) ∧
      (Converter.convert sdk pipeline options_ s0).calls = [] ∧
      (Converter.convert sdk pipeline options_ s0).document = none ∧
      ∃ e, (Converter.convert sdk pipeline options_ s0).result = .error e) ∨
    (sdk.importInitOk = true ∧ sdk.importOk = true ∧ pipeline.sceneConvert = none ∧
      ∃ doc blobs, pipeline.build = .ok (doc, blobs) ∧
        (Converter.convert sdk pipeline options_ s0).calls =
          (Converter.resolveBuffers options_ (options_.writer.getD defaultWriter) blobs
            ⟨doc, s0, []⟩).2.calls ∧
        (Converter.convert sdk pipeline options_ s0).document =
          some (Converter.resolveBuffers options_ (options_.writer.getD defaultWriter) blobs
            ⟨doc, s0, []⟩).2.document ∧
        (Converter.convert sdk pipeline options_ s0).result =
          match (Converter.resolveBuffers options_ (options_.writer.getD defaultWriter) blobs
            ⟨doc, s0, []⟩).1 with
          | none => .ok (pipeline.to_json
              (Converter.resolveBuffers options_ (options_.writer.getD defaultWriter) blobs
                ⟨doc, s0, []⟩).2.document)
          | some e => .error e) := by
  cases h1 : sdk.importInitOk with
  | false =>
    left
    refine ⟨Or.inl rfl, ?_, ?_, ?_⟩ <;> simp [Converter.convert, Converter._import, h1]
  | true =>
    cases h2 : sdk.importOk with
    | false =>
      left
      refine ⟨Or.inr (Or.inl rfl), ?_, ?_, ?_⟩ <;>
        simp [Converter.convert, Converter._import, h1, h2]
    | true =>
      cases h3 : pipeline.sceneConvert with
      | some what =>
        left
        refine ⟨Or.inr (Or.inr (Or.inl (by simp))), ?_, ?_, ?_⟩ <;>
          simp [Converter.convert, Converter._import, h1, h2, h3]
      | none =>
        cases h4 : pipeline.build with
        | error what =>
          left
          refine ⟨Or.inr (Or.inr (Or.inr ⟨what, rfl⟩)), ?_, ?_, ?_⟩ <;>
            simp [Converter.convert, Converter._import, h1, h2, h3, h4]
        | ok built =>
          obtain ⟨doc, blobs⟩ := built
          right
          refine ⟨rfl, rfl, rfl, doc, blobs, rfl, ?_, ?_, ?_⟩
          · simp only [Converter.convert, Converter._import, h1, h2, h3, h4]
            cases hr : Converter.resolveBuffers options_ (options_.writer.getD defaultWriter)
                blobs ⟨doc, s0, []⟩ with
            | mk err st => cases err <;> simp
          · simp only [Converter.convert, Converter._import, h1, h2, h3, h4]
            cases hr : Converter.resolveBuffers options_ (options_.writer.getD defaultWriter)
                blobs ⟨doc, s0, []⟩ with
            | mk err st => cases err <;> simp [resolveImages_eq]
          · simp only [Converter.convert, Converter._import, h1, h2, h3, h4]
            cases hr : Converter.resolveBuffers options_ (options_.writer.getD defaultWriter)
                blobs ⟨doc, s0, []⟩ with
            | mk err st => cases err <;> simp [resolveImages_eq]

/-- The writer calls of the free function are those of the member function. -/
theorem convert_calls {σ Json : Type} (sdk : FbxSdk) (pipeline : Pipeline Json)
    (options_ : ConvertOptions σ) (s0 : σ) :
    (convert sdk pipeline options_ s0).calls = [] ∨
    (convert sdk pipeline options_ s0).calls =
      (Converter.convert sdk pipeline options_ s0).calls := by
  unfold convert
  cases Converter.new sdk options_ with
  | none => left; rfl
  | some warnings => right; rfl

/-- C3: with `useDataUriForBuffers` set, a conversion never calls
`buffer()` of a writer, configured or default: the recorded sequence of
writer calls of `Converter::convert`, and of the free function `convert`, is
empty, for every document, blob set and outcome of the other stages. -/
theorem convert_never_calls_writer {σ Json : Type} (sdk : FbxSdk) (pipeline : Pipeline Json)
    (options_ : ConvertOptions σ) (s0 : σ) (hf : options_.useDataUriForBuffers = true) :
    (Converter.convert sdk pipeline options_ s0).calls = [] ∧
    (convert sdk pipeline options_ s0).calls = [] := by
  have hmember : (Converter.convert sdk pipeline options_ s0).calls = [] := by
    rcases Converter.convert_cases sdk pipeline options_ s0 with
      ⟨_, h, _⟩ | ⟨_, _, _, doc, blobs, _, hcalls, _⟩
    · exact h
    · rw [hcalls, Converter.resolveBuffers]
      exact forIndices_calls_of_useDataUri hf _ _
  refine ⟨hmember, ?_⟩
  rcases convert_calls sdk pipeline options_ s0 with h | h
  · exact h
  · rw [h, hmember]

theorem convert_never_calls_writer_witness :
    (convert Sample.sdk Sample.pipeline Sample.inlineOptions ()).calls = [] :=
  (convert_never_calls_writer Sample.sdk Sample.pipeline Sample.inlineOptions () rfl).2

/-- C4 (amended): with `useDataUriForBuffers` false, a configured writer that
does not raise, and `N < 2^32` buffers, the writer calls of
`Converter::convert` are exactly one call per buffer index `0, ..., N-1`, in
this order, the call for `i` having the arguments (blob `i`, its size, `i`,
`multipleBuffersExist`), where `multipleBuffersExist` is false when `N = 1`
and true when `N ≥ 2`. -/
theorem convert_writer_calls {σ Json : Type} (sdk : FbxSdk) (pipeline : Pipeline Json)
    (options_ : ConvertOptions σ) (s0 : σ) (w : GLTFWriter σ) (doc : Document)
    (blobs : List (List Byte))
    (hinit : sdk.importInitOk = true) (himport : sdk.importOk = true)
    (hscene : pipeline.sceneConvert = none) (hbuild : pipeline.build = .ok (doc, blobs))
    (hN : doc.buffers.length = blobs.length) (h32 : blobs.length < 2 ^ 32)
    (hf : options_.useDataUriForBuffers = false) (hw : options_.writer = some w)
    (hquiet : ∀ c ∈ (Converter.convert sdk pipeline options_ s0).calls,
      c.reply.isRaised = false) :
    (Converter.convert sdk pipeline options_ s0).calls.length = blobs.length ∧
    (Converter.convert sdk pipeline options_ s0).calls.map WriterCall.index =
      List.range blobs.length ∧
    ∀ i, i < blobs.length → ∃ blob r, blobs[i]? = some blob ∧
      (Converter.convert sdk pipeline options_ s0).calls[i]? =
        some ⟨blob, blob.length, i, decide (2 ≤ blobs.length), .returned r⟩ := by
  rcases Converter.convert_cases sdk pipeline options_ s0 with
    ⟨hstage, _⟩ | ⟨_, _, _, doc1, blobs1, hb, hcalls, _⟩
  · exfalso
    rcases hstage with h | h | h | ⟨what, h⟩
    · rw [hinit] at h; simp at h
    · rw [himport] at h; simp at h
    · exact h hscene
    · rw [hbuild] at h; simp at h
  · rw [hbuild] at hb
    have hd : doc1 = doc := by simp at hb; exact hb.1.symm
    have hbl : blobs1 = blobs := by simp at hb; exact hb.2.symm
    subst hd; subst hbl
    rw [hw] at hcalls
    simp only [Option.getD_some] at hcalls
    rw [hcalls] at hquiet ⊢
    have hmod : doc1.buffers.length % 2 ^ 32 = blobs1.length := by
      rw [hN]; exact Nat.mod_eq_of_lt h32
    obtain ⟨_, _, _, _, _, hF, hin⟩ := resolveBuffers_quiet options_ w doc1 blobs1 s0 hN hquiet
    have hlen := hF hf
    rw [hmod] at hlen hin
    have hcall : ∀ i, i < blobs1.length → ∃ blob r, blobs1[i]? = some blob ∧
        (Converter.resolveBuffers options_ w blobs1 ⟨doc1, s0, []⟩).2.calls[i]? =
          some ⟨blob, blob.length, i, decide (2 ≤ blobs1.length), .returned r⟩ := by
      intro i hi
      obtain ⟨_, blob, r, _, h2, _, _, h5⟩ := hin i hi
      refine ⟨blob, r, h2, ?_⟩
      rw [h5 hf]
      have hm : (blobs1.length != 1) = decide (2 ≤ blobs1.length) := by
        by_cases h2le : 2 ≤ blobs1.length
        · simp [h2le]; omega
        · have h1 : blobs1.length = 1 := by omega
          simp [h1]
      rw [hm]
    refine ⟨hlen, ?_, hcall⟩
    apply List.ext_getElem?
    intro i
    by_cases hi : i < blobs1.length
    · obtain ⟨blob, r, _, hc⟩ := hcall i hi
      rw [List.getElem?_map, hc, List.getElem?_range hi]
      rfl
    · rw [List.getElem?_eq_none (by simp [hlen]; omega),
        List.getElem?_eq_none (by simp; omega)]

theorem convert_writer_calls_witness :
    (Converter.convert Sample.sdk Sample.pipeline Sample.options ()).calls.map
      WriterCall.index = List.range Sample.blobs.length :=
  (convert_writer_calls Sample.sdk Sample.pipeline Sample.options () Sample.writer
    Sample.document Sample.blobs rfl rfl rfl rfl rfl (by decide) rfl rfl (by decide)).2.1

/-- A document whose buffer count is `1` modulo `2^32`: the writer is called
once, for buffer 0, with `multipleBuffersExist` false. -/
theorem resolveBuffers_replicate_of_mod_one {σ : Type} (options_ : ConvertOptions σ)
    (w : GLTFWriter σ) (n : Nat) (b : Buffer) (blob : List Byte) (s0 : σ)
    (hf : options_.useDataUriForBuffers = false)
    (hn : n % 2 ^ 32 = 1) (hpos : 0 < n) :
    (Converter.resolveBuffers options_ w (List.replicate n blob)
      ⟨⟨List.replicate n b, []⟩, s0, []⟩).2.calls.map
        (fun c => (c.index, c.multipleBuffersExist)) = [(0, false)] := by
  have hlen : (List.replicate n b).length % 2 ^ 32 = 1 := by simpa using hn
  have hb : (List.replicate n b)[0]? = some b := List.getElem?_replicate_of_lt hpos
  have hbl : (List.replicate n blob)[0]? = some blob := List.getElem?_replicate_of_lt hpos
  simp only [Converter.resolveBuffers, hlen]
  have hrange : List.range 1 = [0] := rfl
  rw [hrange]
  simp only [forIndices, Converter.resolveBuffer, hb, hbl, hf]
  cases hw : w.buffer s0 blob blob.length 0 (1 != 1) with
  | mk reply s1 =>
    cases reply <;> simp [forIndices]

/-- The same for `Converter::convert` with a configured writer. -/
theorem convert_replicate_of_mod_one (n : Nat) (b : Buffer) (blob : List Byte)
    (hn : n % 2 ^ 32 = 1) (hpos : 0 < n) :
    (Converter.convert Sample.sdk
      (⟨none, .ok (⟨List.replicate n b, []⟩, List.replicate n blob), id⟩ : Pipeline Document)
      (⟨none, false, false, false, some Sample.fileWriter⟩ : ConvertOptions Unit) ()).calls.map
        (fun c => (c.index, c.multipleBuffersExist)) = [(0, false)] := by
  rcases Converter.convert_cases Sample.sdk
      (⟨none, .ok (⟨List.replicate n b, []⟩, List.replicate n blob), id⟩ : Pipeline Document)
      (⟨none, false, false, false, some Sample.fileWriter⟩ : ConvertOptions Unit) () with
    ⟨hstage, _⟩ | ⟨_, _, _, doc1, blobs1, hb, hcalls, _⟩
  · exfalso
    rcases hstage with h | h | h | ⟨what, h⟩
    · simp [Sample.sdk] at h
    · simp [Sample.sdk] at h
    · exact h rfl
    · simp at h
  · have hd : doc1 = ⟨List.replicate n b, []⟩ := by
      simp only [Except.ok.injEq, Prod.mk.injEq] at hb; exact hb.1.symm
    have hbl : blobs1 = List.replicate n blob := by
      simp only [Except.ok.injEq, Prod.mk.injEq] at hb; exact hb.2.symm
    rw [hcalls, hd, hbl]
    exact resolveBuffers_replicate_of_mod_one _ _ n _ _ () rfl hn hpos

/-- C4 fails as stated at `N = 2^32 + 1`: the buffer count cast to
`std::uint32_t` is 1, so the writer is called once only, for buffer 0, and
with `multipleBuffersExist` false although there are more than two
buffers. -/
theorem convert_truncates_buffer_count :
    (Converter.convert Sample.sdk
      (⟨none, .ok (⟨List.replicate (2 ^ 32 + 1) ⟨0, "", ""⟩, []⟩,
        List.replicate (2 ^ 32 + 1) []), id⟩ : Pipeline Document)
      (⟨none, false, false, false, some Sample.fileWriter⟩ : ConvertOptions Unit) ()).calls.map
        (fun c => (c.index, c.multipleBuffersExist)) = [(0, false)] :=
  convert_replicate_of_mod_one (2 ^ 32 + 1) ⟨0, "", ""⟩ []
    (by norm_num) (Nat.succ_pos _)

/-- The buffer block on a document with one buffer when the writer step is
skipped or the writer gives no reference: the buffer gets the inline
reference of its blob. -/
theorem resolveBuffers_single_inline {σ : Type} (options_ : ConvertOptions σ)
    (w : GLTFWriter σ) (buf : Buffer) (images : List Image) (blob : List Byte) (s0 : σ)
    (h : options_.useDataUriForBuffers = true ∨
      ∀ s d n i m, (w.buffer s d n i m).1 = WriterReply.returned none) :
    (Converter.resolveBuffers options_ w [blob] ⟨⟨[buf], images⟩, s0, []⟩).1 = none ∧
    (Converter.resolveBuffers options_ w [blob] ⟨⟨[buf], images⟩, s0, []⟩).2.document =
      ⟨[{ buf with uri := dataUri blob }], images⟩ := by
  have hrange : List.range 1 = [0] := rfl
  cases hf : options_.useDataUriForBuffers with
  | true =>
    simp [Converter.resolveBuffers, hrange, forIndices, Converter.resolveBuffer, hf,
      Document.setBufferUri]
  | false =>
    have hw : ∀ s d n i m, (w.buffer s d n i m).1 = WriterReply.returned none := by
      rcases h with h | h
      · rw [hf] at h; simp at h
      · exact h
    have hw0 := hw s0 blob blob.length 0 false
    cases hr : w.buffer s0 blob blob.length 0 false with
    | mk reply s1 =>
      rw [hr] at hw0
      simp only at hw0
      subst hw0
      simp [Converter.resolveBuffers, hrange, forIndices, Converter.resolveBuffer, hf,
        Document.setBufferUri, hr]

/-- C5: round trip of the inline fallback.  For every byte sequence `b`, the
inline reference is `"data:application/octet-stream;base64,"` followed by a
payload `p`, standard base64 decoding of `p` succeeds and gives back exactly
`b`, and this reference is what the buffer block assigns to a buffer with
blob `b` when inline references are forced. -/
theorem inline_reference_round_trip {σ : Type} (b : List Byte) (fbmDir : Option String)
    (logger verbose : Bool) (writer : Option (GLTFWriter σ)) (w : GLTFWriter σ)
    (buf : Buffer) (images : List Image) (s0 : σ) :
    ∃ p : String,
      dataUri b = "data:application/octet-stream;base64," ++ p ∧
      cppcodec.base64_rfc4648.decode p = some b ∧
      (Converter.resolveBuffers ⟨fbmDir, logger, verbose, true, writer⟩ w [b]
        ⟨⟨[buf], images⟩, s0, []⟩).2.document.buffers =
          [{ buf with uri := "data:application/octet-stream;base64," ++ p }] := by
  refine ⟨cppcodec.base64_rfc4648.encode b, rfl, decode_encode b, ?_⟩
  rw [(resolveBuffers_single_inline ⟨fbmDir, logger, verbose, true, writer⟩ w buf images b s0
    (Or.inl rfl)).2]
  rfl

/-- C6: with no writer configured the default writer is used, and a document
with a single buffer whose blob is the bytes 1, 2, 3, 4 is converted to a
document whose buffer has the uri
`"data:application/octet-stream;base64,AQIDBA=="`. -/
theorem convert_single_buffer_without_writer {σ Json : Type} (sdk : FbxSdk)
    (pipeline : Pipeline Json) (options_ : ConvertOptions σ) (s0 : σ) (buf : Buffer)
    (images : List Image)
    (hinit : sdk.importInitOk = true) (himport : sdk.importOk = true)
    (hscene : pipeline.sceneConvert = none)
    (hbuild : pipeline.build = .ok (⟨[buf], images⟩, [[1, 2, 3, 4]]))
    (hw : options_.writer = none) :
    (Converter.convert sdk pipeline options_ s0).document =
      some ⟨[{ buf with uri := "data:application/octet-stream;base64,AQIDBA==" }], images⟩ ∧
    (Converter.convert sdk pipeline options_ s0).result =
      .ok (pipeline.to_json
        ⟨[{ buf with uri := "data:application/octet-stream;base64,AQIDBA==" }], images⟩) ∧
    (Converter.convert sdk pipeline options_ s0).calls.all
      (fun c => c.reply == WriterReply.returned none) = true := by
  have henc : dataUri [1, 2, 3, 4] = "data:application/octet-stream;base64,AQIDBA==" := by
    decide
  rcases Converter.convert_cases sdk pipeline options_ s0 with
    ⟨hstage, _⟩ | ⟨_, _, _, doc1, blobs1, hb, hcalls, hdoc, hres⟩
  · exfalso
    rcases hstage with h | h | h | ⟨what, h⟩
    · rw [hinit] at h; simp at h
    · rw [himport] at h; simp at h
    · exact h hscene
    · rw [hbuild] at h; simp at h
  · rw [hbuild] at hb
    have hd : doc1 = ⟨[buf], images⟩ := by simp at hb; exact hb.1.symm
    have hbl : blobs1 = [[1, 2, 3, 4]] := by simp at hb; exact hb.2.symm
    subst hd; subst hbl
    rw [hw] at hcalls hdoc hres
    simp only [Option.getD_none] at hcalls hdoc hres
    obtain ⟨h1, h2⟩ := resolveBuffers_single_inline options_ (defaultWriter : GLTFWriter σ) buf
      images [1, 2, 3, 4] s0 (Or.inr (fun _ _ _ _ _ => rfl))
    rw [h2, henc] at hdoc
    rw [h1, h2, henc] at hres
    refine ⟨hdoc, hres, ?_⟩
    rw [hcalls]
    have hrange : List.range 1 = [0] := rfl
    cases hf : options_.useDataUriForBuffers <;>
      simp [Converter.resolveBuffers, hrange, forIndices, Converter.resolveBuffer, hf,
        defaultWriter]

theorem convert_single_buffer_without_writer_witness :
    (Converter.convert Sample.sdk
      (⟨none, .ok (⟨[⟨4, "buffer", ""⟩], []⟩, [[1, 2, 3, 4]]), id⟩ : Pipeline Document)
      (⟨none, false, false, false, none⟩ : ConvertOptions Unit) ()).document =
      some ⟨[⟨4, "buffer", "data:application/octet-stream;base64,AQIDBA=="⟩], []⟩ :=
  (convert_single_buffer_without_writer Sample.sdk
    (⟨none, .ok (⟨[⟨4, "buffer", ""⟩], []⟩, [[1, 2, 3, 4]]), id⟩ : Pipeline Document)
    (⟨none, false, false, false, none⟩ : ConvertOptions Unit) () ⟨4, "buffer", ""⟩ []
    rfl rfl rfl rfl rfl).1

/-- C7: if a call of the writer's `buffer()` raised for buffer index `i`,
`Converter::convert` ends with that error and returns no document; the
raising call is the last call, so the writer is not called for any index
above `i`; and every buffer from `i` on is as `build` left it: no uri, inline
or other, was assigned to it. -/
theorem convert_writer_failure {σ Json : Type} (sdk : FbxSdk) (pipeline : Pipeline Json)
    (options_ : ConvertOptions σ) (s0 : σ) (c : WriterCall) (what : String)
    (hc : c ∈ (Converter.convert sdk pipeline options_ s0).calls)
    (hraised : c.reply = .raised what) :
    (Converter.convert sdk pipeline options_ s0).result = .error (.writer what) ∧
    (Converter.convert sdk pipeline options_ s0).calls.getLast? = some c ∧
    (∀ c1 ∈ (Converter.convert sdk pipeline options_ s0).calls, c1.index ≤ c.index) ∧
    ∃ doc blobs final, pipeline.build = .ok (doc, blobs) ∧
      (Converter.convert sdk pipeline options_ s0).document = some final ∧
      ∀ j, c.index ≤ j → final.buffers[j]? = doc.buffers[j]? := by
  rcases Converter.convert_cases sdk pipeline options_ s0 with
    ⟨_, hnil, _⟩ | ⟨_, _, _, doc, blobs, hb, hcalls, hdoc, hres⟩
  · rw [hnil] at hc; simp at hc
  · rw [hcalls] at hc ⊢
    rw [hres]
    rw [resolveBuffers_eq] at hc hdoc ⊢
    simp only at hc hdoc ⊢
    cases herr : (forIndices
        (Converter.resolveBuffer options_ (options_.writer.getD defaultWriter) blobs
          (doc.buffers.length % 2 ^ 32))
        (List.range' 0 (doc.buffers.length % 2 ^ 32)) ⟨doc, s0, []⟩).1 with
    | none =>
      exfalso
      obtain ⟨_, _, _, cs, hcs, hT, hF, hin⟩ := forIndices_none _ _ _ herr
      simp only [List.nil_append] at hcs
      rw [hcs] at hc
      cases hf : options_.useDataUriForBuffers with
      | true => rw [hT hf] at hc; simp at hc
      | false =>
        obtain ⟨k, hk, hck⟩ := List.getElem_of_mem hc
        obtain ⟨_, blob, r, _, _, _, _, h5⟩ := hin k (Nat.zero_le _) (by
          have := hF hf
          omega)
        have hsome := h5 hf
        rw [Nat.sub_zero, List.getElem?_eq_getElem hk, hck] at hsome
        have hceq : c = ⟨blob, blob.length, k, doc.buffers.length % 2 ^ 32 != 1, .returned r⟩ := by
          simpa using hsome
        rw [hceq] at hraised
        simp at hraised
    | some e =>
      obtain ⟨_, cs, hret, hcase⟩ := forIndices_some _ _ _ e herr
      have hnot : c ∉ cs := by
        intro hmem
        obtain ⟨_, r, hr⟩ := hret c hmem
        rw [hr] at hraised
        simp at hraised
      rcases hcase with ⟨_, _, hcs⟩ | ⟨what1, i, blob, he, _, _, _, _, hcs, _, hlt, hkeep⟩
      · exfalso
        simp only [List.nil_append] at hcs
        rw [hcs] at hc
        exact hnot hc
      · simp only [List.nil_append] at hcs
        rw [hcs] at hc ⊢
        have hlast : c = ⟨blob, blob.length, i, doc.buffers.length % 2 ^ 32 != 1,
            .raised what1⟩ := by
          rcases List.mem_append.mp hc with h | h
          · exact absurd h hnot
          · simpa using h
        have hwhat : what1 = what := by
          rw [hlast] at hraised
          simpa using hraised
        have hidx : c.index = i := by rw [hlast]
        refine ⟨?_, ?_, ?_, doc, blobs, _, hb, hdoc, ?_⟩
        · simp only [he, hwhat]
        · rw [hlast]; simp
        · intro c1 hc1
          rcases List.mem_append.mp hc1 with h | h
          · have := hlt c1 h
            omega
          · have h1 : c1 = ⟨blob, blob.length, i, doc.buffers.length % 2 ^ 32 != 1,
                .raised what1⟩ := by simpa using h
            rw [h1, hidx]
        · intro j hj
          exact hkeep j (by omega)

theorem convert_writer_failure_witness :
    (Converter.convert Sample.sdk Sample.pipeline
      (⟨none, false, false, false, some Sample.failingWriter⟩ : ConvertOptions Unit) ()).result =
      .error (.writer "disk full") :=
  (convert_writer_failure Sample.sdk Sample.pipeline
    (⟨none, false, false, false, some Sample.failingWriter⟩ : ConvertOptions Unit) ()
    ⟨[2, 3], 2, 1, true, .raised "disk full"⟩ "disk full" (by decide) rfl).1

/-! ## Lifetime of the SDK objects -/

/-- The SDK objects created and destroyed by `Converter::convert`, on each
of its paths. -/
theorem Converter.convert_events {σ Json : Type} (sdk : FbxSdk) (pipeline : Pipeline Json)
    (options_ : ConvertOptions σ) (s0 : σ) :
    (Converter.convert sdk pipeline options_ s0).events =
      if sdk.importInitOk = true then
        if sdk.importOk = true then
          [Event.create FbxObject.ioSettings, Event.create FbxObject.importer,
            Event.create FbxObject.scene, Event.destroy FbxObject.importer,
            Event.destroy FbxObject.scene]
        else
          [Event.create FbxObject.ioSettings, Event.create FbxObject.importer,
            Event.create FbxObject.scene, Event.destroy FbxObject.importer]
      else
        [Event.create FbxObject.ioSettings, Event.create FbxObject.importer,
          Event.destroy FbxObject.importer] := by
  cases h1 : sdk.importInitOk with
  | false => simp [Converter.convert, Converter._import, FbxObjectDestroyer.destructor, h1]
  | true =>
    cases h2 : sdk.importOk with
    | false => simp [Converter.convert, Converter._import, FbxObjectDestroyer.destructor, h1, h2]
    | true =>
      cases h3 : pipeline.sceneConvert with
      | some what => simp [Converter.convert, Converter._import, FbxObjectDestroyer.destructor, h1, h2, h3]
      | none =>
        cases h4 : pipeline.build with
        | error what => simp [Converter.convert, Converter._import, FbxObjectDestroyer.destructor, h1, h2, h3, h4]
        | ok built =>
          obtain ⟨doc, blobs⟩ := built
          simp only [Converter.convert, Converter._import, h1, h2, h3, h4]
          cases hr : Converter.resolveBuffers options_ (options_.writer.getD defaultWriter)
              blobs ⟨doc, s0, []⟩ with
          | mk err st => cases err <;> simp [FbxObjectDestroyer.destructor]

/-- On every exit path of the free function `convert` on which the manager
was created, other than a failure of the structural import step (success,
failed importer initialisation, failed scene conversion, failed build,
failed writer), every object acquired (importer, scene) is destroyed exactly
once before the manager is destroyed, and the manager is destroyed last.
The importer is destroyed when `_import` is left and the scene when
`Converter::convert` is left. -/
theorem convert_events_of_guarded_path {σ Json : Type} (sdk : FbxSdk)
    (pipeline : Pipeline Json) (options_ : ConvertOptions σ) (s0 : σ)
    (hmanager : sdk.managerOk = true)
    (hpath : sdk.importInitOk = false ∨ sdk.importOk = true) :
    (convert sdk pipeline options_ s0).events =
      if sdk.importInitOk = true then
        [Event.create FbxObject.manager, Event.create FbxObject.ioSettings,
          Event.create FbxObject.importer, Event.create FbxObject.scene,
          Event.destroy FbxObject.importer, Event.destroy FbxObject.scene,
          Event.destroy FbxObject.manager]
      else
        [Event.create FbxObject.manager, Event.create FbxObject.ioSettings,
          Event.create FbxObject.importer, Event.destroy FbxObject.importer,
          Event.destroy FbxObject.manager] := by
  have hnew : ∃ warnings, Converter.new sdk options_ = some warnings := by
    unfold Converter.new
    simp only [hmanager]
    cases options_.fbmDir <;> cases sdk.addXRefProjectOk <;> cases options_.logger <;> simp
  obtain ⟨warnings, hnew⟩ := hnew
  simp only [convert, hnew, Converter.convert_events]
  rcases hpath with h | h
  · simp [h]
  · cases h1 : sdk.importInitOk <;> simp [h]

/-- C8, at a file whose importer initialises and whose structural import
step fails: the scene has been created, the exception of `_import` leaves
the conversion, the importer is destroyed by its guard, and the manager is
destroyed without the scene having been destroyed.  This holds for every
answer of the other collaborators and every option. -/
theorem convert_import_failure_leaves_scene {σ Json : Type} (pipeline : Pipeline Json)
    (options_ : ConvertOptions σ) (s0 : σ) (addXRefProjectOk isFBX : Bool)
    (importInitStatus importStatus : String) (mFileVersion : Int) :
    (convert ⟨true, addXRefProjectOk, true, importInitStatus, isFBX, mFileVersion, false,
        importStatus⟩ pipeline options_ s0).events =
      [Event.create FbxObject.manager, Event.create FbxObject.ioSettings,
        Event.create FbxObject.importer, Event.create FbxObject.scene,
        Event.destroy FbxObject.importer, Event.destroy FbxObject.manager] ∧
    (convert ⟨true, addXRefProjectOk, true, importInitStatus, isFBX, mFileVersion, false,
        importStatus⟩ pipeline options_ s0).result =
      .error (.runtimeError ("Failed to import scene." ++ importStatus)) ∧
    Event.destroy FbxObject.scene ∉
      (convert ⟨true, addXRefProjectOk, true, importInitStatus, isFBX, mFileVersion, false,
        importStatus⟩ pipeline options_ s0).events := by
  have hnew : ∃ warnings, @Converter.new σ
      ⟨true, addXRefProjectOk, true, importInitStatus, isFBX, mFileVersion, false,
        importStatus⟩ options_ = some warnings := by
    unfold Converter.new
    cases options_.fbmDir <;> cases addXRefProjectOk <;> cases options_.logger <;> simp
  obtain ⟨warnings, hnew⟩ := hnew
  have hevents : (convert ⟨true, addXRefProjectOk, true, importInitStatus, isFBX, mFileVersion,
      false, importStatus⟩ pipeline options_ s0).events =
      [Event.create FbxObject.manager, Event.create FbxObject.ioSettings,
        Event.create FbxObject.importer, Event.create FbxObject.scene,
        Event.destroy FbxObject.importer, Event.destroy FbxObject.manager] := by
    simp [convert, hnew, Converter.convert_events]
  refine ⟨hevents, ?_, ?_⟩
  · simp [convert, hnew, Converter.convert, Converter._import]
  · rw [hevents]
    decide

/-! ## The version diagnostic of `_import` -/

theorem minorLoop_ten_mul (n : Nat) (hn : 0 < n) :
    minorLoop ((10 * n : Nat) : Int) = minorLoop (n : Int) := by
  rw [minorLoop_natCast, if_pos ⟨by omega, by omega⟩]
  congr 2
  omega

theorem minorLoop_digit (d : Nat) (h1 : 1 ≤ d) (h9 : d ≤ 9) : minorLoop (d : Int) = (d : Int) := by
  rw [minorLoop_natCast, if_neg (by omega)]

theorem versionString_natCast (v : Nat) :
    versionString (v : Int) =
      toString (v / 1000) ++ "." ++ toString (dropTrailingZeroDigits (v % 1000)) := by
  simp only [versionString, tdiv_thousand, tmod_thousand, minorLoop_eq_dropTrailingZeroDigits,
    toString_natCast]

/-- C9: version diagnostic of `Converter::_import` for a file whose header
gives the non-negative raw version code `v`.  When the importer has
initialised, `verbose` is set and a logger is configured, exactly one
message is logged, at level verbose, and its version string is
`major.minor` with `major = v / 1000` and `minor` the number `v % 1000`
without its trailing zero decimal digits; for `v = 7400` the version string
is `"7.4"`.  When `verbose` is false or no logger is configured, nothing is
logged. -/
theorem import_version_diagnostic {σ : Type} (sdk : FbxSdk) (options_ : ConvertOptions σ)
    (v : Nat) (hv : sdk.mFileVersion = (v : Int)) :
    (sdk.importInitOk = true → options_.verbose = true → options_.logger = true →
      (Converter._import sdk options_).log =
        [(Logger.Level.verbose, "FBX file version: " ++
          (toString (v / 1000) ++ "." ++ toString (dropTrailingZeroDigits (v % 1000))))]) ∧
    (sdk.importInitOk = true → options_.verbose = true → options_.logger = true →
      v = 7400 →
      (Converter._import sdk options_).log =
        [(Logger.Level.verbose, "FBX file version: 7.4")]) ∧
    (options_.verbose = false ∨ options_.logger = false →
      (Converter._import sdk options_).log = []) := by
  have hmain : sdk.importInitOk = true → options_.verbose = true → options_.logger = true →
      (Converter._import sdk options_).log =
        [(Logger.Level.verbose, "FBX file version: " ++
          (toString (v / 1000) ++ "." ++ toString (dropTrailingZeroDigits (v % 1000))))] := by
    intro hinit hverbose hlogger
    cases h2 : sdk.importOk <;>
      simp [Converter._import, hinit, hverbose, hlogger, h2, versionMessage, hv,
        versionString_natCast]
  refine ⟨hmain, ?_, ?_⟩
  · intro hinit hverbose hlogger h7400
    rw [hmain hinit hverbose hlogger, h7400]
    have hd : dropTrailingZeroDigits (7400 % 1000) = 4 := by
      simp [dropTrailingZeroDigits]
    rw [hd]
    decide
  · intro hoff
    cases h1 : sdk.importInitOk <;> cases h2 : sdk.importOk <;>
      rcases hoff with h | h <;> simp [Converter._import, h1, h2, h]

theorem import_version_diagnostic_witness :
    (Converter._import Sample.sdk Sample.options).log =
      [(Logger.Level.verbose, "FBX file version: 7.4")] :=
  (import_version_diagnostic Sample.sdk Sample.options 7400 rfl).2.1 rfl rfl rfl rfl

/-- C10: the version string is not injective in the raw version code.  For
every major `m` and every digit `d` from 1 to 9 the three different raw
codes `1000 m + 100 d`, `1000 m + 10 d` and `1000 m + d` give the same
version string `m.d` (7400, 7040 and 7004 all give `"7.4"`), and the loop
that strips the trailing zeros terminates on every integer. -/
theorem versionString_not_injective (m d : Nat) (h1 : 1 ≤ d) (h9 : d ≤ 9) :
    versionString ((1000 * m + 100 * d : Nat) : Int) = toString m ++ "." ++ toString d ∧
    versionString ((1000 * m + 10 * d : Nat) : Int) = toString m ++ "." ++ toString d ∧
    versionString ((1000 * m + d : Nat) : Int) = toString m ++ "." ++ toString d ∧
    (1000 * m + 100 * d ≠ 1000 * m + 10 * d ∧ 1000 * m + 10 * d ≠ 1000 * m + d ∧
      1000 * m + 100 * d ≠ 1000 * m + d) ∧
    (versionString 7400 = "7.4" ∧ versionString 7040 = "7.4" ∧ versionString 7004 = "7.4") ∧
    ¬ Function.Injective versionString ∧
    ∀ minor : Int, ∃ fuel : Nat, minorLoopFuel fuel minor = some (minorLoop minor) := by
  have hgen : ∀ (m d k : Nat), 1 ≤ d → d ≤ 9 → (k = 100 * d ∨ k = 10 * d ∨ k = d) →
      versionString ((1000 * m + k : Nat) : Int) = toString m ++ "." ++ toString d := by
    intro m d k hd1 hd9 hk
    have hdiv : (1000 * m + k) / 1000 = m := by omega
    have hmod : (1000 * m + k) % 1000 = k := by omega
    have hloop : minorLoop (k : Int) = (d : Int) := by
      rcases hk with hk | hk | hk
      · have h100 : k = 10 * (10 * d) := by omega
        rw [h100, minorLoop_ten_mul _ (by omega), minorLoop_ten_mul _ (by omega),
          minorLoop_digit d hd1 hd9]
      · rw [hk, minorLoop_ten_mul _ (by omega), minorLoop_digit d hd1 hd9]
      · rw [hk, minorLoop_digit d hd1 hd9]
    simp only [versionString, tdiv_thousand, tmod_thousand, hdiv, hmod, hloop, toString_natCast]
  have h7400 : versionString 7400 = "7.4" := hgen 7 4 400 (by decide) (by decide) (Or.inl rfl)
  have h7040 : versionString 7040 = "7.4" :=
    hgen 7 4 40 (by decide) (by decide) (Or.inr (Or.inl rfl))
  have h7004 : versionString 7004 = "7.4" :=
    hgen 7 4 4 (by decide) (by decide) (Or.inr (Or.inr rfl))
  refine ⟨hgen m d _ h1 h9 (Or.inl rfl), hgen m d _ h1 h9 (Or.inr (Or.inl rfl)),
    hgen m d _ h1 h9 (Or.inr (Or.inr rfl)), ⟨by omega, by omega, by omega⟩,
    ⟨h7400, h7040, h7004⟩, ?_, fun minor => ⟨minor.natAbs + 1, minorLoopFuel_natAbs minor⟩⟩
  intro hinj
  have := hinj (h7400.trans h7040.symm)
  omega

theorem versionString_not_injective_witness :
    versionString ((1000 * 7 + 100 * 4 : Nat) : Int) = toString 7 ++ "." ++ toString 4 :=
  (versionString_not_injective 7 4 (by decide) (by decide)).1

end bee
